import Mathlib

/-!
Verification of the dPoker hand-simulation engine against its specification.

The definitions below are a shallow embedding of the Python sources
`hands_generator/bot_hands/generate_poker_data.py`,
`poker44/hands_generator/bot_hands/sandbox_poker_bot.py` and
`poker44/hands_generator/consistency_checker.py`.

Modelling conventions:
* Python floats holding monetary values are modelled as exact rationals (ℚ);
  `round(x, 2)` is modelled by `round2` below.  All monetary quantities the
  engine manipulates are integer multiples of 0.01 (`IsCent`), where the
  tie-breaking convention of `round` is irrelevant.
* Python ints are modelled as ℤ (Python `%` is `Int.emod`, `int()` on a float
  is truncation toward zero, `Int.tdiv`).
* The ambient `random` stream and the decision agent seen from the betting
  round are modelled as explicit oracle streams, universally quantified in the
  theorems.
* In-place mutation is modelled by explicit state passing.
-/

/-- `round(x, 2)` of Python, on exact rationals. -/
def round2 (q : ℚ) : ℚ := (round (q * 100) : ℤ) / 100

/-- `round(x, 1)` of Python, on exact rationals (used for
`normalized_amount_bb`). -/
def round1 (q : ℚ) : ℚ := (round (q * 10) : ℤ) / 10

/-- A rational that is a whole number of cents: every monetary value the
generator manipulates satisfies this. -/
def IsCent (q : ℚ) : Prop := ∃ n : ℤ, q = n / 100

theorem isCent_zero : IsCent 0 := ⟨0, by norm_num⟩

theorem isCent_add {a b : ℚ} (ha : IsCent a) (hb : IsCent b) : IsCent (a + b) := by
  obtain ⟨m, rfl⟩ := ha; obtain ⟨n, rfl⟩ := hb
  exact ⟨m + n, by push_cast; ring⟩

theorem isCent_neg {a : ℚ} (ha : IsCent a) : IsCent (-a) := by
  obtain ⟨m, rfl⟩ := ha
  exact ⟨-m, by push_cast; ring⟩

theorem isCent_sub {a b : ℚ} (ha : IsCent a) (hb : IsCent b) : IsCent (a - b) := by
  simpa [sub_eq_add_neg] using isCent_add ha (isCent_neg hb)

theorem isCent_min {a b : ℚ} (ha : IsCent a) (hb : IsCent b) : IsCent (min a b) := by
  rcases le_total a b with h | h
  · simpa [min_eq_left h] using ha
  · simpa [min_eq_right h] using hb

theorem isCent_max {a b : ℚ} (ha : IsCent a) (hb : IsCent b) : IsCent (max a b) := by
  rcases le_total a b with h | h
  · simpa [max_eq_right h] using hb
  · simpa [max_eq_left h] using ha

theorem isCent_intDiv100 (n : ℤ) : IsCent ((n : ℚ) / 100) := ⟨n, rfl⟩

/-- `round2` is the identity on whole numbers of cents. -/
theorem round2_eq_self {q : ℚ} (h : IsCent q) : round2 q = q := by
  obtain ⟨n, rfl⟩ := h
  have hn : (n : ℚ) / 100 * 100 = (n : ℚ) := by field_simp
  rw [round2, hn, round_intCast]

/-- `round2` output is always a whole number of cents. -/
theorem isCent_round2 (q : ℚ) : IsCent (round2 q) := ⟨round (q * 100), rfl⟩

/-- Adding a whole number of cents commutes with `round2`. -/
theorem round2_add_cent (q : ℚ) {c : ℚ} (hc : IsCent c) :
    round2 (q + c) = round2 q + c := by
  obtain ⟨n, rfl⟩ := hc
  have : (q + (n : ℚ) / 100) * 100 = q * 100 + (n : ℚ) := by
    field_simp
  rw [round2, this, round_add_int, round2]
  push_cast
  ring

/-- Subtracting a whole number of cents commutes with `round2`. -/
theorem round2_sub_cent (q : ℚ) {c : ℚ} (hc : IsCent c) :
    round2 (q - c) = round2 q - c := by
  have := round2_add_cent q (isCent_neg hc)
  simpa [sub_eq_add_neg] using this

/-! ## C1: outcome finalization and the validator's total_pot check

From `PokerHandGenerator._finalize_hand` (generate_poker_data.py lines
604-669) and `validate_hand` (consistency_checker.py lines 76-85). -/

/-- Outcome record, mirroring the `"outcome"` object built by
`_finalize_hand`:
`{"winners": [winner.uid], "payouts": {winner.uid: payout},
  "total_pot": round(pot_shown, 2), "rake": rake, "result_reason": reason,
  "showdown": reason == "showdown"}`. -/
structure OutcomeRec where
  winners : List String
  payouts : List (String × ℚ)
  total_pot : ℚ
  rake : ℚ
  result_reason : String
  showdown : Bool
  deriving Repr

/-- The outcome arithmetic of `_finalize_hand`:
`rake = round(pot_shown * self.rake_rate, 2)`,
`payout = round(pot_shown - rake, 2)`, single winner. -/
def finalizeOutcome (rakeRate potShown : ℚ) (winnerUid : String)
    (reason : String) : OutcomeRec :=
  let rake := round2 (potShown * rakeRate)
  let payout := round2 (potShown - rake)
  { winners := [winnerUid]
    payouts := [(winnerUid, payout)]
    total_pot := round2 potShown
    rake := rake
    result_reason := reason
    showdown := reason == "showdown" }

/-- `sum(outcome.get("payouts", {}).values())` of the consistency checker. -/
def payoutsSum (o : OutcomeRec) : ℚ := (o.payouts.map Prod.snd).sum

/-- The total_pot consistency check of `validate_hand`
(consistency_checker.py lines 76-85): the hand passes iff
`round(payouts_sum + rake, 2) == round(total_pot, 2)`. -/
def totalPotCheck (o : OutcomeRec) : Bool :=
  round2 (payoutsSum o + o.rake) = round2 o.total_pot

/-- C1: For every completed hand, sum of payouts plus rake equals total_pot to
within 0.01 (in fact exactly), where rake = round(pot * rake_rate, 2) and the
winner's payout = round(pot - rake, 2); equivalently every generated hand
passes the Schema Validator's total_pot consistency check.  Stated for every
pot value, rake rate, winner and result reason. -/
theorem finalizeOutcome_totalPot_consistent
    (rakeRate potShown : ℚ) (winnerUid reason : String) :
    totalPotCheck (finalizeOutcome rakeRate potShown winnerUid reason) = true ∧
    |payoutsSum (finalizeOutcome rakeRate potShown winnerUid reason) +
        (finalizeOutcome rakeRate potShown winnerUid reason).rake -
        (finalizeOutcome rakeRate potShown winnerUid reason).total_pot| ≤ 1 / 100 := by
  have hsum :
      payoutsSum (finalizeOutcome rakeRate potShown winnerUid reason) +
        (finalizeOutcome rakeRate potShown winnerUid reason).rake =
      (finalizeOutcome rakeRate potShown winnerUid reason).total_pot := by
    show round2 (potShown - round2 (potShown * rakeRate)) + 0 +
        round2 (potShown * rakeRate) = round2 potShown
    rw [round2_sub_cent potShown (isCent_round2 (potShown * rakeRate))]
    ring
  refine ⟨?_, ?_⟩
  · simp only [totalPotCheck, hsum, decide_eq_true_eq]
  · rw [hsum]
    simp

/-! ## C8: deck construction and dealing

From `PokerHandGenerator._create_shuffled_deck` (lines 215-219) and
`PokerHandGenerator._deal_cards` (lines 221-236). -/

/-- `self.suits = ['s', 'h', 'd', 'c']` -/
def suits : List String := ["s", "h", "d", "c"]

/-- `self.ranks = ['2',...,'A']` -/
def ranks : List String :=
  ["2", "3", "4", "5", "6", "7", "8", "9", "T", "J", "Q", "K", "A"]

/-- The unshuffled 52-card deck
`[f"{rank}{suit}" for rank in self.ranks for suit in self.suits]`.
`random.shuffle` is modelled by quantifying over an arbitrary permutation of
this list in the theorems. -/
def fullDeck : List String :=
  ranks.flatMap (fun r => suits.map (fun s => r ++ s))

/-- `[deck.pop() for _ in range(num)]`: remove `n` cards from the end of the
deck, returning them in pop order together with the remaining deck. -/
def popEnd : ℕ → List String → List String × List String
  | 0, deck => ([], deck)
  | n + 1, deck =>
      match deck.getLast? with
      | none => ([], deck)
      | some c =>
          let p := popEnd n deck.dropLast
          (c :: p.1, p.2)

/-- `PokerHandGenerator._deal_cards` with a deck supplied: raises
(`Except.error`) when fewer than `num` cards remain, otherwise pops `num`
cards from the end.  (The deckless fallback path of the source draws with
replacement and is exercised only when no deck is passed; the claim is about
the deck-supplied path.) -/
def dealCards (num : ℕ) (deck : List String) :
    Except String (List String × List String) :=
  if deck.length < num then
    Except.error "Not enough cards left in deck to deal the requested number."
  else
    Except.ok (popEnd num deck)

/-- Popping from the end is taking from the front of the reversed deck. -/
theorem popEnd_eq (n : ℕ) (deck : List String) (h : n ≤ deck.length) :
    popEnd n deck = (deck.reverse.take n, (deck.reverse.drop n).reverse) := by
  induction n generalizing deck with
  | zero => simp [popEnd]
  | succ k ih =>
      have hne : deck ≠ [] := by
        intro hnil; rw [hnil] at h; simp at h
      obtain ⟨c, hc⟩ : ∃ c, deck.getLast? = some c := by
        cases hh : deck.getLast? with
        | none => exact absurd (List.getLast?_eq_none_iff.mp hh) hne
        | some c => exact ⟨c, rfl⟩
      have hk : k ≤ deck.dropLast.length := by
        simp only [List.length_dropLast]; omega
      have hrev : deck.reverse = c :: deck.dropLast.reverse := by
        have hhead : deck.reverse.head? = some c := by
          rw [List.head?_reverse, hc]
        have htail : deck.reverse.tail = deck.dropLast.reverse :=
          List.tail_reverse deck
        cases hr : deck.reverse with
        | nil => rw [hr] at hhead; simp at hhead
        | cons x xs =>
            rw [hr] at hhead htail
            simp only [List.head?_cons, Option.some.injEq] at hhead
            simp only [List.tail_cons] at htail
            rw [hhead, htail]
      rw [popEnd, hc]
      simp only [ih deck.dropLast hk, hrev, List.take_succ_cons,
        List.drop_succ_cons]

/-- C8 part 1: with a deck supplied, `_deal_cards` removes and returns exactly
`n` cards from the end of the deck (the remaining deck followed by the dealt
cards, re-reversed, reconstitutes the deck), and fails with the
insufficient-cards error exactly when `n` exceeds the remaining deck size. -/
theorem dealCards_spec (n : ℕ) (deck : List String) :
    (n ≤ deck.length →
      ∃ dealt rest, dealCards n deck = Except.ok (dealt, rest) ∧
        dealt.length = n ∧ rest ++ dealt.reverse = deck) ∧
    (deck.length < n →
      dealCards n deck =
        Except.error "Not enough cards left in deck to deal the requested number.") := by
  constructor
  · intro h
    refine ⟨(popEnd n deck).1, (popEnd n deck).2, ?_, ?_, ?_⟩
    · simp [dealCards, Nat.not_lt.mpr h]
    · rw [popEnd_eq n deck h]
      simp only [List.length_take, List.length_reverse]
      omega
    · rw [popEnd_eq n deck h]
      simp only
      rw [← List.reverse_append, List.take_append_drop, List.reverse_reverse]
  · intro h
    simp [dealCards, h]

/-- Successive dealing from one deck: deal each count in `ns` in turn,
returning the dealt chunks and the final remaining deck.  This models a
hand's dealing sequence (2 hole cards to each player, then 3/1/1 board
cards) from the single deck created by `_create_shuffled_deck`. -/
def dealMany : List ℕ → List String → Except String (List (List String) × List String)
  | [], deck => Except.ok ([], deck)
  | n :: ns, deck =>
      match dealCards n deck with
      | Except.error e => Except.error e
      | Except.ok (dealt, rest) =>
          match dealMany ns rest with
          | Except.error e => Except.error e
          | Except.ok (chunks, finalDeck) => Except.ok (dealt :: chunks, finalDeck)

theorem dealCards_perm {n : ℕ} {deck dealt rest : List String}
    (h : dealCards n deck = Except.ok (dealt, rest)) :
    (dealt ++ rest).Perm deck := by
  by_cases hn : deck.length < n
  · rw [dealCards, if_pos hn] at h; cases h
  · push_neg at hn
    rw [dealCards, if_neg (Nat.not_lt.mpr hn), popEnd_eq n deck hn] at h
    simp only [Except.ok.injEq, Prod.mk.injEq] at h
    obtain ⟨h1, h2⟩ := h
    subst h1; subst h2
    have hp : (List.take n deck.reverse ++ (List.drop n deck.reverse).reverse).Perm
        (List.take n deck.reverse ++ List.drop n deck.reverse) :=
      List.Perm.append_left _ (List.reverse_perm _)
    rw [List.take_append_drop] at hp
    exact hp.trans (List.reverse_perm deck)

theorem dealMany_perm {ns : List ℕ} {deck : List String}
    {chunks : List (List String)} {rest : List String}
    (h : dealMany ns deck = Except.ok (chunks, rest)) :
    (chunks.flatten ++ rest).Perm deck := by
  induction ns generalizing deck chunks rest with
  | nil =>
      simp only [dealMany, Except.ok.injEq, Prod.mk.injEq] at h
      obtain ⟨h1, h2⟩ := h
      subst h1; subst h2
      simp
  | cons n ns ih =>
      cases hdc : dealCards n deck with
      | error e => simp [dealMany, hdc] at h
      | ok p =>
          obtain ⟨dealt, mid⟩ := p
          cases hdm : dealMany ns mid with
          | error e => simp [dealMany, hdc, hdm] at h
          | ok q =>
              obtain ⟨cs, fin⟩ := q
              simp only [dealMany, hdc, hdm, Except.ok.injEq, Prod.mk.injEq] at h
              obtain ⟨h1, h2⟩ := h
              subst h1; subst h2
              have hp1 := dealCards_perm hdc
              have hp2 := ih hdm
              have hflat : (dealt :: cs).flatten ++ fin = dealt ++ (cs.flatten ++ fin) := by
                simp [List.append_assoc]
              rw [hflat]
              exact (List.Perm.append_left dealt hp2).trans hp1

/-- `_create_shuffled_deck` builds all 52 rank-suit combinations; the shuffle
is an arbitrary permutation, so the deck a hand starts from is `Nodup`. -/
theorem fullDeck_nodup : fullDeck.Nodup := by decide

/-- C8: when a deck is supplied, `_deal_cards` removes and returns exactly `n`
cards from the end of the deck, fails with the insufficient-cards error if `n`
exceeds the remaining deck size, and consequently all cards dealt from one
fresh shuffled 52-card deck within a single hand (2 hole cards to each of 6
players plus the 3/1/1 board) are pairwise distinct. -/
theorem dealCards_exact_and_distinct (n : ℕ) (deck : List String)
    (d0 : List String) (ns : List ℕ) (hperm : d0.Perm fullDeck) :
    (n ≤ deck.length →
      ∃ dealt rest, dealCards n deck = Except.ok (dealt, rest) ∧
        dealt.length = n ∧ rest ++ dealt.reverse = deck) ∧
    (deck.length < n →
      dealCards n deck =
        Except.error "Not enough cards left in deck to deal the requested number.") ∧
    (∀ chunks rest, dealMany ns d0 = Except.ok (chunks, rest) →
      chunks.flatten.Nodup) := by
  refine ⟨(dealCards_spec n deck).1, (dealCards_spec n deck).2, ?_⟩
  intro chunks rest h
  have hd0 : d0.Nodup := (hperm.nodup_iff).mpr fullDeck_nodup
  have hall : (chunks.flatten ++ rest).Nodup :=
    ((dealMany_perm h).nodup_iff).mpr hd0
  exact (List.nodup_append.mp hall).1

/-- Witness for C8 at concrete inputs: a 2-card deck dealt 1 card (success,
from the end) and 3 cards (insufficient-cards error), and the full hand
dealing pattern of `_generate_single_hand` (six 2-card holes, then 3/1/1
board cards) from the 52-card deck. -/
theorem dealCards_exact_and_distinct_witness :
    (∃ dealt rest, dealCards 1 ["2s", "3s"] = Except.ok (dealt, rest) ∧
        dealt.length = 1 ∧ rest ++ dealt.reverse = ["2s", "3s"]) ∧
    dealCards 3 ["2s", "3s"] =
      Except.error "Not enough cards left in deck to deal the requested number." ∧
    (∀ chunks rest,
      dealMany [2, 2, 2, 2, 2, 2, 3, 1, 1] fullDeck = Except.ok (chunks, rest) →
      chunks.flatten.Nodup) :=
  ⟨(dealCards_exact_and_distinct 1 ["2s", "3s"] fullDeck
      [2, 2, 2, 2, 2, 2, 3, 1, 1] (List.Perm.refl _)).1 (by decide),
   (dealCards_exact_and_distinct 3 ["2s", "3s"] fullDeck
      [2, 2, 2, 2, 2, 2, 3, 1, 1] (List.Perm.refl _)).2.1 (by decide),
   (dealCards_exact_and_distinct 3 ["2s", "3s"] fullDeck
      [2, 2, 2, 2, 2, 2, 3, 1, 1] (List.Perm.refl _)).2.2⟩

/-! ## The betting round state machine

From `PokerHandGenerator._run_betting_round` (generate_poker_data.py lines
382-537) and `_add_action` (lines 585-602).  The decision agent, as seen by
the round (`_get_player_decision`), is abstracted as an arbitrary stream of
decisions consumed one per query; the theorems quantify over this stream.
`player = session.players[idx]` is recovered from the active-player list
`players` through the position of `idx` in `occupied_seats` (both lists
enumerate the same occupied seats in ascending order). -/

/-- `ActionType` of sandbox_poker_bot.py. -/
inductive ActionType
  | fold
  | check
  | call
  | bet
  | raise
  deriving DecidableEq, Repr

/-- `BotDecision` of sandbox_poker_bot.py: an action, an integer amount in
cents, and the `meta["reason"]` marker attached at the return site. -/
structure BotDecision where
  action : ActionType
  amount : ℤ
  reason : String
  deriving DecidableEq, Repr

/-- One entry of the `actions` list built by `_add_action` (the JSON stores
`action_id` as a decimal string; we keep the number). -/
structure ActionEvent where
  action_id : ℕ
  street : String
  actor_seat : ℤ
  action_type : String
  amount : ℚ
  raise_to : Option ℚ
  call_to : Option ℚ
  normalized_amount_bb : ℚ
  pot_before : ℚ
  pot_after : ℚ
  deriving DecidableEq, Repr

/-- `PokerHandGenerator._add_action` (lines 585-602): append the event record
(rounding every recorded amount to 2 decimals) and return the updated
`(actions, pot_shown, pot_true)`. -/
def addAction (bb : ℚ) (actions : List ActionEvent) (actionId : ℕ)
    (street : String) (seat : ℤ) (actionType : String) (amount : ℚ)
    (potShown potTrue : ℚ) (raiseTo callTo deltaShown deltaTrue : Option ℚ) :
    List ActionEvent × ℚ × ℚ :=
  let deltaS := deltaShown.getD amount
  let deltaT := deltaTrue.getD deltaS
  let potBefore := potShown
  let potAfter := potShown + deltaS
  (actions ++
    [{ action_id := actionId
       street := street
       actor_seat := seat
       action_type := actionType
       amount := round2 amount
       raise_to := raiseTo.map round2
       call_to := callTo.map round2
       normalized_amount_bb := round1 (amount / bb)
       pot_before := round2 potBefore
       pot_after := round2 potAfter }],
   potAfter, potTrue + deltaT)

/-- The per-player mutable state the betting round manipulates (fields of the
`Player` dataclass that `_run_betting_round` reads or writes). -/
structure RoundPlayer where
  seat : ℤ
  stack : ℚ
  folded : Bool
  invested_this_street : ℚ
  total_invested : ℚ
  deriving DecidableEq, Repr

instance : Inhabited RoundPlayer := ⟨⟨0, 0, false, 0, 0⟩⟩

/-- The local variables of one `_run_betting_round` invocation.  `toAct`
models the Python small-int set `to_act` as an ascending duplicate-free list
(CPython iterates such sets in ascending order); `queries` counts the
decision-agent queries made so far. -/
structure RoundState where
  players : List RoundPlayer
  currentLevel : ℚ
  potShown : ℚ
  potTrue : ℚ
  actionId : ℕ
  actions : List ActionEvent
  toAct : List ℕ
  lastAggressor : Option ℕ
  lastAggTrueAmt : ℚ
  lastAggShownAmt : ℚ
  queries : ℕ

/-- The per-round constants: street name, big blind, the fixed `action_order`
(as positions into `players`), and the abstract decision agent. -/
structure RoundCfg where
  street : String
  bb : ℚ
  actionOrder : List ℕ
  oracle : ℕ → BotDecision

/-- `len([p for p in players if not p.folded])`. -/
def unfoldedCount (players : List RoundPlayer) : ℕ :=
  (players.filter (fun p => !p.folded)).length

/-- `to_act = {j for j in range(len(action_order)) if j != i and not
action_order[j].folded}`, read against the current player states. -/
def resetToAct (cfg : RoundCfg) (players : List RoundPlayer) (i : ℕ) : List ℕ :=
  (List.range cfg.actionOrder.length).filter
    (fun j => j ≠ i && !(players.getD (cfg.actionOrder.getD j 0) default).folded)

/-- Lines 506-521 and 523-536 (identical code at the early-return site and
after the loop): if a last aggressor with a positive displayed amount exists,
append the `uncalled_bet_return` action refunding the shown/true amounts. -/
def uncalledReturn (cfg : RoundCfg) (st : RoundState) : RoundState :=
  match st.lastAggressor with
  | none => st
  | some la =>
      if 0 < st.lastAggShownAmt then
        let seat := (st.players.getD (cfg.actionOrder.getD la 0) default).seat
        let r := addAction cfg.bb st.actions (st.actionId + 1) cfg.street seat
          "uncalled_bet_return" st.lastAggShownAmt st.potShown st.potTrue
          none none (some (-st.lastAggShownAmt)) (some (-st.lastAggTrueAmt))
        { st with actions := r.1, potShown := r.2.1, potTrue := r.2.2,
                  actionId := st.actionId + 1 }
      else st

/-- The body of `for i in list(to_act)` for one element `i` (lines 408-521):
skip folded/broke players, otherwise query the agent, apply the action, and
perform the early-exit check.  `Sum.inr` is the early `return` (lines
506-521); `Sum.inl` continues the pass. -/
def stepPlayer (cfg : RoundCfg) (st : RoundState) (i : ℕ) :
    RoundState ⊕ RoundState :=
  let k := cfg.actionOrder.getD i 0
  let player := st.players.getD k default
  if player.folded || decide (player.stack ≤ 0) then
    Sum.inl { st with toAct := st.toAct.erase i }
  else
    let toCall := max 0 (st.currentLevel - player.invested_this_street)
    let d := cfg.oracle st.queries
    let aid := st.actionId + 1
    let stq := { st with queries := st.queries + 1, actionId := aid }
    let st1 :=
      match d.action with
      | ActionType.fold =>
          let r := addAction cfg.bb stq.actions aid cfg.street player.seat
            "fold" 0 stq.potShown stq.potTrue none none none none
          { stq with players := stq.players.set k { player with folded := true },
                     actions := r.1, potShown := r.2.1, potTrue := r.2.2,
                     toAct := stq.toAct.erase i }
      | ActionType.check =>
          let r := addAction cfg.bb stq.actions aid cfg.street player.seat
            "check" 0 stq.potShown stq.potTrue none none none none
          { stq with actions := r.1, potShown := r.2.1, potTrue := r.2.2,
                     toAct := stq.toAct.erase i }
      | ActionType.call =>
          let amt := min toCall player.stack
          let callTarget : Option ℚ := if 0 < toCall then some stq.currentLevel else none
          let r := addAction cfg.bb stq.actions aid cfg.street player.seat
            "call" amt stq.potShown stq.potTrue none callTarget none (some amt)
          { stq with
              players := stq.players.set k
                { player with stack := player.stack - amt,
                              invested_this_street := player.invested_this_street + amt,
                              total_invested := player.total_invested + amt },
              actions := r.1, potShown := r.2.1, potTrue := r.2.2,
              lastAggressor := none, lastAggTrueAmt := 0, lastAggShownAmt := 0,
              toAct := stq.toAct.erase i }
      | ActionType.bet | ActionType.raise =>
          let rawAmt := min ((d.amount : ℚ) / 100) player.stack
          if stq.currentLevel = (0 : ℚ) then
            let betSize := rawAmt
            let players1 := stq.players.set k
              { player with stack := player.stack - betSize,
                            invested_this_street := player.invested_this_street + betSize,
                            total_invested := player.total_invested + betSize }
            let r := addAction cfg.bb stq.actions aid cfg.street player.seat
              "bet" betSize stq.potShown stq.potTrue none none none (some betSize)
            { stq with players := players1, currentLevel := betSize,
                       actions := r.1, potShown := r.2.1, potTrue := r.2.2,
                       lastAggressor := some i, lastAggTrueAmt := betSize,
                       lastAggShownAmt := betSize,
                       toAct := resetToAct cfg players1 i }
          else
            let raiseIncrement := rawAmt
            let newLevel := stq.currentLevel + raiseIncrement
            let toInvest := toCall + raiseIncrement
            let players1 := stq.players.set k
              { player with stack := player.stack - min player.stack toInvest,
                            invested_this_street := player.invested_this_street + toInvest,
                            total_invested := player.total_invested + toInvest }
            let r := addAction cfg.bb stq.actions aid cfg.street player.seat
              "raise" raiseIncrement stq.potShown stq.potTrue (some newLevel) none
              none (some toInvest)
            { stq with players := players1, currentLevel := newLevel,
                       actions := r.1, potShown := r.2.1, potTrue := r.2.2,
                       lastAggressor := some i, lastAggTrueAmt := toInvest,
                       lastAggShownAmt := raiseIncrement,
                       toAct := resetToAct cfg players1 i }
    if unfoldedCount st1.players ≤ 1 then Sum.inr (uncalledReturn cfg st1)
    else Sum.inl st1

/-- One pass of `for i in list(to_act)` over the snapshot taken at the start
of the pass. -/
def runPass (cfg : RoundCfg) : List ℕ → RoundState → RoundState ⊕ RoundState
  | [], st => Sum.inl st
  | i :: rest, st =>
      match stepPlayer cfg st i with
      | Sum.inr final => Sum.inr final
      | Sum.inl st1 => runPass cfg rest st1

/-- `max_actions = 60` (line 404). -/
def maxActions : ℕ := 60

/-- `while to_act and count < max_actions` (line 406): the fuel argument is
`max_actions - count`.  `Sum.inr` propagates the early `return`; `Sum.inl`
is normal loop exit (empty to-act set or iteration cap). -/
def roundLoop (cfg : RoundCfg) : ℕ → RoundState → RoundState ⊕ RoundState
  | 0, st => Sum.inl st
  | fuel + 1, st =>
      if st.toAct.isEmpty then Sum.inl st
      else
        match runPass cfg st.toAct st with
        | Sum.inr final => Sum.inr final
        | Sum.inl st1 => roundLoop cfg fuel st1

/-- Lines 387-391: the seat-index order in which players are considered.
Preflop starts after the big blind position inside `occupied_seats`;
otherwise (`flop`/`turn`/`river`) the order is `occupied_seats[:]`. -/
def computeOrder (occupiedSeats : List ℕ) (street : String) (bbSeatIdx : ℕ) :
    List ℕ :=
  if street = "preflop" then
    let startIdx := occupiedSeats.indexOf bbSeatIdx
    occupiedSeats.drop (startIdx + 1) ++ occupiedSeats.take (startIdx + 1)
  else occupiedSeats

/-- Lines 393-397: keep, in order, the positions (into the active-player list
`players`) of the non-folded players among `order`. -/
def actionOrderOf (players : List RoundPlayer) (occupiedSeats : List ℕ)
    (order : List ℕ) : List ℕ :=
  order.filterMap (fun idx =>
    let k := occupiedSeats.indexOf idx
    match players[k]? with
    | none => none
    | some p => if p.folded then none else some k)

/-- `PokerHandGenerator._run_betting_round` (lines 382-537), with the decision
agent abstracted as the stream `oracle`.  Returns the full final round state
(the source returns `(action_id, pot_shown, pot_true)` and mutates `players`
and `actions` in place). -/
def runBettingRound (street : String) (bb : ℚ) (oracle : ℕ → BotDecision)
    (players : List RoundPlayer) (actionId : ℕ)
    (potShown potTrue currentLevel : ℚ) (bbSeatIdx : ℕ)
    (actions : List ActionEvent) (occupiedSeats : List ℕ) : RoundState :=
  let active := players.filter (fun p => !p.folded && decide (0 < p.stack))
  let st0 : RoundState :=
    { players := players, currentLevel := currentLevel, potShown := potShown,
      potTrue := potTrue, actionId := actionId, actions := actions,
      toAct := [], lastAggressor := none, lastAggTrueAmt := 0,
      lastAggShownAmt := 0, queries := 0 }
  if active.length ≤ 1 then st0
  else
    let order := computeOrder occupiedSeats street bbSeatIdx
    let cfg : RoundCfg :=
      { street := street, bb := bb,
        actionOrder := actionOrderOf players occupiedSeats order,
        oracle := oracle }
    let st1 := { st0 with toAct := List.range cfg.actionOrder.length }
    match roundLoop cfg maxActions st1 with
    | Sum.inr final => final
    | Sum.inl stEnd => uncalledReturn cfg stEnd

/-- Lines 301-316 and 318-332 (the identical small/big blind posting code):
post `min(blind, stack)` and record the blind action. -/
def postBlind (bbSize : ℚ) (actions : List ActionEvent) (actionId : ℕ)
    (seat : ℤ) (blindType : String) (blindSize stack : ℚ)
    (potShown potTrue : ℚ) : List ActionEvent × ℚ × ℚ :=
  let amt := min blindSize stack
  addAction bbSize actions actionId "preflop" seat blindType amt potShown
    potTrue none none none none

/-! ## C3: action order within a betting round -/

/-- The occupied position cyclically after `pos` in `occupiedSeats`: the
spec's "the one seated immediately after [the big blind / the button]
(continuing cyclically through the occupied seats)".  Written from the
spec's words, to be compared with `computeOrder`. -/
def seatAfterCyclic (occupiedSeats : List ℕ) (pos : ℕ) : Option ℕ :=
  occupiedSeats[(occupiedSeats.indexOf pos + 1) % occupiedSeats.length]?

/-- C3 counterexample: with occupied seat positions `[0, 1, 2]` and the
button at position `1`, the flop order built by `_run_betting_round` starts
at position `0` (the lowest occupied position), not at position `2`, the one
seated immediately after the button — so the claim's postflop part is false.
(The third argument of `computeOrder` is the big-blind position, unused off
preflop.) -/
theorem computeOrder_postflop_not_after_button :
    ¬ ((computeOrder [0, 1, 2] "flop" 2).head? = seatAfterCyclic [0, 1, 2] 1) := by
  decide

/-- C3 amended: preflop the order starts at the occupied position immediately
after the big blind and is a rotation (permutation) of the occupied
positions; on flop/turn/river the order is `occupied_seats` itself, i.e. it
starts at the lowest-numbered occupied position regardless of the button. -/
theorem computeOrder_start_positions (occupiedSeats : List ℕ) (street : String)
    (bbSeatIdx : ℕ) (hbb : bbSeatIdx ∈ occupiedSeats) :
    (street ≠ "preflop" → computeOrder occupiedSeats street bbSeatIdx = occupiedSeats) ∧
    (computeOrder occupiedSeats "preflop" bbSeatIdx).head? =
      seatAfterCyclic occupiedSeats bbSeatIdx ∧
    (computeOrder occupiedSeats "preflop" bbSeatIdx).Perm occupiedSeats := by
  refine ⟨fun hs => by simp [computeOrder, hs], ?_, ?_⟩
  · have hi : occupiedSeats.indexOf bbSeatIdx < occupiedSeats.length :=
      List.indexOf_lt_length.mpr hbb
    set i := occupiedSeats.indexOf bbSeatIdx with hidef
    rw [computeOrder, if_pos rfl, seatAfterCyclic, List.head?_append,
      List.head?_drop]
    by_cases hlt : i + 1 < occupiedSeats.length
    · rw [List.getElem?_eq_getElem hlt, Nat.mod_eq_of_lt hlt,
        List.getElem?_eq_getElem hlt]
      rfl
    · have heq : i + 1 = occupiedSeats.length := by omega
      rw [heq]
      have hnone : occupiedSeats[occupiedSeats.length]? = none := by
        simp
      rw [hnone, Option.none_or, List.take_length, Nat.mod_self]
      exact (List.head?_eq_getElem? occupiedSeats).symm ▸ rfl
  · rw [computeOrder, if_pos rfl]
    exact List.perm_append_comm.trans
      (by rw [List.take_append_drop])

/-- Witness for the amended C3 theorem at occupied positions `[0, 1, 2]` with
the big blind at position `1`. -/
theorem computeOrder_start_positions_witness :
    computeOrder [0, 1, 2] "turn" 1 = [0, 1, 2] ∧
    (computeOrder [0, 1, 2] "preflop" 1).head? = seatAfterCyclic [0, 1, 2] 1 ∧
    (computeOrder [0, 1, 2] "preflop" 1).Perm [0, 1, 2] :=
  ⟨(computeOrder_start_positions [0, 1, 2] "turn" 1 (by decide)).1 (by decide),
   (computeOrder_start_positions [0, 1, 2] "turn" 1 (by decide)).2.1,
   (computeOrder_start_positions [0, 1, 2] "turn" 1 (by decide)).2.2⟩

/-! ## C5: semantics of a raise (current_level > 0)

From lines 479-504 of `_run_betting_round`. -/

theorem unfoldedCount_set {players : List RoundPlayer} {k : ℕ} {p : RoundPlayer}
    (hk : k < players.length) (hf : p.folded = players[k].folded) :
    unfoldedCount (players.set k p) = unfoldedCount players := by
  induction players generalizing k with
  | nil => simp at hk
  | cons q qs ih =>
      cases k with
      | zero =>
          simp only [List.getElem_cons_zero] at hf
          simp only [List.set_cons_zero, unfoldedCount, List.filter_cons, hf]
          cases q.folded <;> simp
      | succ k =>
          simp only [List.getElem_cons_succ] at hf
          have hk2 : k < qs.length := by simpa using hk
          simp only [List.set_cons_succ, unfoldedCount, List.filter_cons]
          have := ih hk2 hf
          simp only [unfoldedCount] at this
          cases hq : !q.folded <;> simp [hq, this]


/-- C5 amended: applying a bet/raise decision when `current_level > 0`
(lines 479-504) produces exactly the following state: with
`to_call = max(0, current_level - invested_this_street)` and increment
`min(decision.amount/100, stack)`, the true pot, `invested_this_street` and
`total_invested` all grow by `to_call + increment`, `current_level` grows by
the increment, the raiser becomes last aggressor, and the to-act set is
reset to all other non-folded players — but the stack decreases by
`min(stack, to_call + increment)`, not always by `to_call + increment`. -/
theorem stepPlayer_raise_semantics (cfg : RoundCfg) (st : RoundState) (i : ℕ)
    (hk : cfg.actionOrder.getD i 0 < st.players.length)
    (hnf : (st.players.getD (cfg.actionOrder.getD i 0) default).folded = false)
    (hst : 0 < (st.players.getD (cfg.actionOrder.getD i 0) default).stack)
    (hlev : 0 < st.currentLevel)
    (hact : (cfg.oracle st.queries).action = ActionType.bet ∨
            (cfg.oracle st.queries).action = ActionType.raise)
    (hunf : 2 ≤ unfoldedCount st.players) :
    stepPlayer cfg st i =
      (let k := cfg.actionOrder.getD i 0
       let p := st.players.getD k default
       let toCall := max 0 (st.currentLevel - p.invested_this_street)
       let inc := min (((cfg.oracle st.queries).amount : ℚ) / 100) p.stack
       let players1 := st.players.set k
         { p with stack := p.stack - min p.stack (toCall + inc),
                  invested_this_street := p.invested_this_street + (toCall + inc),
                  total_invested := p.total_invested + (toCall + inc) }
       Sum.inl
         { players := players1
           currentLevel := st.currentLevel + inc
           potShown := st.potShown + inc
           potTrue := st.potTrue + (toCall + inc)
           actionId := st.actionId + 1
           actions := st.actions ++
             [{ action_id := st.actionId + 1
                street := cfg.street
                actor_seat := p.seat
                action_type := "raise"
                amount := round2 inc
                raise_to := some (round2 (st.currentLevel + inc))
                call_to := none
                normalized_amount_bb := round1 (inc / cfg.bb)
                pot_before := round2 st.potShown
                pot_after := round2 (st.potShown + inc) }]
           toAct := resetToAct cfg players1 i
           lastAggressor := some i
           lastAggTrueAmt := toCall + inc
           lastAggShownAmt := inc
           queries := st.queries + 1 }) := by
  set k := cfg.actionOrder.getD i 0 with hkdef
  set p := st.players.getD k default with hpdef
  have hcond : (p.folded || decide (p.stack ≤ 0)) = false := by
    simp [hnf, not_le.mpr hst]
  have hlev0 : ¬ st.currentLevel = (0 : ℚ) := ne_of_gt hlev
  have hpe : st.players[k] = p := by
    rw [hpdef, List.getD_eq_getElem st.players default hk]
  have hcount : ∀ p2 : RoundPlayer, p2.folded = p.folded →
      unfoldedCount (st.players.set k p2) = unfoldedCount st.players := by
    intro p2 hf
    exact unfoldedCount_set hk (by rw [hf, hpe])
  rcases hact with hb | hb <;>
  · rw [stepPlayer]
    simp only [← hkdef, ← hpdef, hcond, Bool.false_eq_true, if_false, hb,
      if_neg hlev0, addAction, Option.getD_none, Option.getD_some,
      Option.map_some', Option.map_none']
    rw [unfoldedCount_set hk]
    · rw [if_neg (by omega)]
    · rw [hpe]

/-- A concrete round configuration: flop, bb = 1, two-player action order,
agent always raising 100 cents. -/
def cexRaiseCfg : RoundCfg :=
  { street := "flop", bb := 1, actionOrder := [0, 1],
    oracle := fun _ => ⟨ActionType.raise, 100, "strong_raise_value"⟩ }

/-- A concrete round state facing that raise: player 0 has stack 1 with 1
already invested against current level 3, so to_call = 2 and the raise
increment is 1, but to_call + increment = 3 exceeds the stack. -/
def cexRaiseSt : RoundState :=
  { players := [⟨1, 1, false, 1, 1⟩, ⟨2, 5, false, 3, 3⟩],
    currentLevel := 3, potShown := 4, potTrue := 4, actionId := 2,
    actions := [], toAct := [0, 1], lastAggressor := none,
    lastAggTrueAmt := 0, lastAggShownAmt := 0, queries := 0 }

/-- C5 counterexample: applying this raise leaves the raiser's stack at 0 —
it decreases by min(stack, to_call + increment) = 1 — while the claim's
`stack decreases by to_call + increment` would require the impossible new
stack 1 − (2 + 1) = −2.  (True pot still grows by the full 3.) -/
theorem stepPlayer_raise_stack_cex :
    ∃ st2, stepPlayer cexRaiseCfg cexRaiseSt 0 = Sum.inl st2 ∧
      (st2.players.getD 0 default).stack = 0 ∧
      (cexRaiseSt.players.getD 0 default).stack -
        (max 0 (cexRaiseSt.currentLevel -
            (cexRaiseSt.players.getD 0 default).invested_this_street) +
         min (((cexRaiseCfg.oracle 0).amount : ℚ) / 100)
           (cexRaiseSt.players.getD 0 default).stack) = -2 ∧
      st2.potTrue = cexRaiseSt.potTrue + 3 ∧ (0 : ℚ) ≠ -2 := by
  have hstep : stepPlayer cexRaiseCfg cexRaiseSt 0 = Sum.inl
      { players := [⟨1, 0, false, 4, 4⟩, ⟨2, 5, false, 3, 3⟩],
        currentLevel := 4, potShown := 5, potTrue := 7, actionId := 3,
        actions := [⟨3, "flop", 1, "raise", 1, some 4, none, 1, 4, 5⟩],
        toAct := [1], lastAggressor := some 0, lastAggTrueAmt := 3,
        lastAggShownAmt := 1, queries := 1 } := by
    norm_num [stepPlayer, cexRaiseCfg, cexRaiseSt, addAction, resetToAct,
      unfoldedCount, round2, round1, round_eq, List.filter]
  refine ⟨_, hstep, by norm_num, ?_, by norm_num [cexRaiseSt], by norm_num⟩
  norm_num [cexRaiseSt, cexRaiseCfg]

/-- Witness for the amended C5 theorem at the concrete raise situation
`cexRaiseCfg`/`cexRaiseSt`. -/
theorem stepPlayer_raise_semantics_witness :
    stepPlayer cexRaiseCfg cexRaiseSt 0 =
      (let k := cexRaiseCfg.actionOrder.getD 0 0
       let p := cexRaiseSt.players.getD k default
       let toCall := max 0 (cexRaiseSt.currentLevel - p.invested_this_street)
       let inc := min (((cexRaiseCfg.oracle cexRaiseSt.queries).amount : ℚ) / 100) p.stack
       let players1 := cexRaiseSt.players.set k
         { p with stack := p.stack - min p.stack (toCall + inc),
                  invested_this_street := p.invested_this_street + (toCall + inc),
                  total_invested := p.total_invested + (toCall + inc) }
       Sum.inl
         { players := players1
           currentLevel := cexRaiseSt.currentLevel + inc
           potShown := cexRaiseSt.potShown + inc
           potTrue := cexRaiseSt.potTrue + (toCall + inc)
           actionId := cexRaiseSt.actionId + 1
           actions := cexRaiseSt.actions ++
             [{ action_id := cexRaiseSt.actionId + 1
                street := cexRaiseCfg.street
                actor_seat := p.seat
                action_type := "raise"
                amount := round2 inc
                raise_to := some (round2 (cexRaiseSt.currentLevel + inc))
                call_to := none
                normalized_amount_bb := round1 (inc / cexRaiseCfg.bb)
                pot_before := round2 cexRaiseSt.potShown
                pot_after := round2 (cexRaiseSt.potShown + inc) }]
           toAct := resetToAct cexRaiseCfg players1 0
           lastAggressor := some 0
           lastAggTrueAmt := toCall + inc
           lastAggShownAmt := inc
           queries := cexRaiseSt.queries + 1 }) :=
  stepPlayer_raise_semantics cexRaiseCfg cexRaiseSt 0 (by decide) (by decide)
    (by norm_num [cexRaiseSt, cexRaiseCfg]) (by norm_num [cexRaiseSt]) (Or.inr rfl)
    (by decide)

/-! ## C6: pot_after = pot_before + signed delta for every logged action -/

/-- The signed pot delta an `ActionEvent` represents: 0 for fold/check,
minus the amount for an uncalled-bet return, otherwise the amount. -/
def signedDeltaOf (e : ActionEvent) : ℚ :=
  if e.action_type = "fold" ∨ e.action_type = "check" then 0
  else if e.action_type = "uncalled_bet_return" then -e.amount
  else e.amount

/-- The C6 invariant for one logged event. -/
def PotDelta (e : ActionEvent) : Prop :=
  e.pot_after = e.pot_before + signedDeltaOf e

/-- Cent-valued betting state: every monetary quantity the round reads when
recording an action is a whole number of cents. -/
def CentPlayers (players : List RoundPlayer) : Prop :=
  ∀ p ∈ players, IsCent p.stack ∧ IsCent p.invested_this_street

def CentState (st : RoundState) : Prop :=
  IsCent st.currentLevel ∧ IsCent st.potShown ∧ IsCent st.lastAggShownAmt ∧
    CentPlayers st.players

theorem centPlayers_set {players : List RoundPlayer} {k : ℕ} {p2 : RoundPlayer}
    (hcp : CentPlayers players)
    (h2 : IsCent p2.stack ∧ IsCent p2.invested_this_street) :
    CentPlayers (players.set k p2) := by
  intro q hq
  rcases List.mem_or_eq_of_mem_set hq with hmem | rfl
  · exact hcp q hmem
  · exact h2

theorem centPlayers_getD {players : List RoundPlayer} {k : ℕ}
    (hcp : CentPlayers players) :
    IsCent (players.getD k default).stack ∧
      IsCent (players.getD k default).invested_this_street := by
  by_cases hk : k < players.length
  · rw [List.getD_eq_getElem players default hk]
    exact hcp _ (List.getElem_mem hk)
  · rw [List.getD_eq_default players default (Nat.le_of_not_lt hk)]
    exact ⟨isCent_zero, isCent_zero⟩

/-- The event appended by `_add_action` with the default `delta_shown`
(i.e. the displayed delta is the amount itself) satisfies `PotDelta`, when
the running pot and the amount are whole numbers of cents and fold/check
events carry amount 0. -/
theorem potDelta_addAction_default (bb : ℚ) (actions : List ActionEvent)
    (aid : ℕ) (street : String) (seat : ℤ) (ty : String) (amount : ℚ)
    (potShown potTrue : ℚ) (raiseTo callTo deltaTrue : Option ℚ)
    (hpot : IsCent potShown) (hamt : IsCent amount)
    (hty : ty = "fold" ∨ ty = "check" → amount = 0)
    (hnu : ty ≠ "uncalled_bet_return") :
    ∀ e ∈ (addAction bb actions aid street seat ty amount potShown potTrue
        raiseTo callTo none deltaTrue).1, e ∈ actions ∨ PotDelta e := by
  intro e he
  rw [addAction] at he
  simp only [Option.getD_none, List.mem_append, List.mem_singleton] at he
  rcases he with he | rfl
  · exact Or.inl he
  · right
    rw [PotDelta, signedDeltaOf]
    simp only
    rw [round2_eq_self hamt, round2_add_cent _ hamt, round2_eq_self hpot]
    by_cases hfc : ty = "fold" ∨ ty = "check"
    · rw [if_pos hfc, hty hfc]
    · rw [if_neg hfc, if_neg hnu]

/-- The `uncalled_bet_return` event (recorded with `delta_shown = -amount`)
satisfies `PotDelta`. -/
theorem potDelta_addAction_uncalled (bb : ℚ) (actions : List ActionEvent)
    (aid : ℕ) (street : String) (seat : ℤ) (amount : ℚ)
    (potShown potTrue : ℚ) (deltaTrue : Option ℚ)
    (hpot : IsCent potShown) (hamt : IsCent amount) :
    ∀ e ∈ (addAction bb actions aid street seat "uncalled_bet_return" amount
        potShown potTrue none none (some (-amount)) deltaTrue).1,
      e ∈ actions ∨ PotDelta e := by
  intro e he
  rw [addAction] at he
  simp only [Option.getD_some, List.mem_append, List.mem_singleton] at he
  rcases he with he | rfl
  · exact Or.inl he
  · right
    rw [PotDelta, signedDeltaOf]
    simp only
    rw [round2_eq_self hamt, round2_add_cent _ (isCent_neg hamt),
      round2_eq_self hpot, if_neg (by decide)]
    norm_num

/-- The final state of a betting-round step/loop result, whichever way it was
returned. -/
def roundStateOf : RoundState ⊕ RoundState → RoundState := Sum.elim id id

theorem uncalledReturn_invariant (cfg : RoundCfg) (st : RoundState)
    (hc : CentState st) :
    CentState (uncalledReturn cfg st) ∧
    ∀ e ∈ (uncalledReturn cfg st).actions, e ∈ st.actions ∨ PotDelta e := by
  obtain ⟨hlev, hpot, hlast, hcp⟩ := hc
  cases hla : st.lastAggressor with
  | none =>
      simp only [uncalledReturn, hla]
      exact ⟨⟨hlev, hpot, hlast, hcp⟩, fun e he => Or.inl he⟩
  | some la =>
      by_cases hgt : 0 < st.lastAggShownAmt
      · simp only [uncalledReturn, hla, if_pos hgt]
        refine ⟨⟨hlev, ?_, hlast, hcp⟩, ?_⟩
        · simp only [addAction, Option.getD_some]
          exact isCent_add hpot (isCent_neg hlast)
        · exact potDelta_addAction_uncalled cfg.bb st.actions (st.actionId + 1)
            cfg.street _ st.lastAggShownAmt st.potShown st.potTrue _ hpot hlast
      · simp only [uncalledReturn, hla, if_neg hgt]
        exact ⟨⟨hlev, hpot, hlast, hcp⟩, fun e he => Or.inl he⟩

theorem stepFinish_invariant (cfg : RoundCfg) (st1 : RoundState)
    (base : List ActionEvent) (c : Prop) [Decidable c]
    (h1 : CentState st1) (h2 : ∀ e ∈ st1.actions, e ∈ base ∨ PotDelta e) :
    CentState (roundStateOf
        (if c then Sum.inr (uncalledReturn cfg st1) else Sum.inl st1)) ∧
    ∀ e ∈ (roundStateOf
        (if c then Sum.inr (uncalledReturn cfg st1) else Sum.inl st1)).actions,
      e ∈ base ∨ PotDelta e := by
  by_cases hcond : c
  · rw [if_pos hcond]
    obtain ⟨hu1, hu2⟩ := uncalledReturn_invariant cfg st1 h1
    refine ⟨hu1, fun e he => ?_⟩
    rcases hu2 e he with hmem | hp
    · exact h2 e hmem
    · exact Or.inr hp
  · rw [if_neg hcond]
    exact ⟨h1, h2⟩

theorem stepPlayer_invariant (cfg : RoundCfg) (st : RoundState) (i : ℕ)
    (hc : CentState st) :
    CentState (roundStateOf (stepPlayer cfg st i)) ∧
    ∀ e ∈ (roundStateOf (stepPlayer cfg st i)).actions,
      e ∈ st.actions ∨ PotDelta e := by
  obtain ⟨hlev, hpot, hlast, hcp⟩ := hc
  obtain ⟨hpstack, hpinv⟩ :=
    @centPlayers_getD st.players (cfg.actionOrder.getD i 0) hcp
  have htc : IsCent (max 0 (st.currentLevel -
      (st.players.getD (cfg.actionOrder.getD i 0) default).invested_this_street)) :=
    isCent_max isCent_zero (isCent_sub hlev hpinv)
  rw [stepPlayer]
  by_cases hskip : ((st.players.getD (cfg.actionOrder.getD i 0) default).folded ||
      decide ((st.players.getD (cfg.actionOrder.getD i 0) default).stack ≤ 0)) = true
  · rw [if_pos hskip]
    exact ⟨⟨hlev, hpot, hlast, hcp⟩, fun e he => Or.inl he⟩
  · rw [if_neg hskip]
    simp only
    cases hda : (cfg.oracle st.queries).action with
    | fold =>
        refine stepFinish_invariant cfg _ st.actions _ ⟨hlev, ?_, hlast, ?_⟩ ?_
        · simp only [addAction, Option.getD_none]
          exact isCent_add hpot isCent_zero
        · exact centPlayers_set hcp ⟨hpstack, hpinv⟩
        · exact potDelta_addAction_default cfg.bb st.actions (st.actionId + 1)
            cfg.street _ "fold" 0 st.potShown st.potTrue none none none
            hpot isCent_zero (fun _ => rfl) (by decide)
    | check =>
        refine stepFinish_invariant cfg _ st.actions _ ⟨hlev, ?_, hlast, hcp⟩ ?_
        · simp only [addAction, Option.getD_none]
          exact isCent_add hpot isCent_zero
        · exact potDelta_addAction_default cfg.bb st.actions (st.actionId + 1)
            cfg.street _ "check" 0 st.potShown st.potTrue none none none
            hpot isCent_zero (fun _ => rfl) (by decide)
    | call =>
        have hamt : IsCent (min (max 0 (st.currentLevel -
            (st.players.getD (cfg.actionOrder.getD i 0) default).invested_this_street))
            (st.players.getD (cfg.actionOrder.getD i 0) default).stack) :=
          isCent_min htc hpstack
        refine stepFinish_invariant cfg _ st.actions _
          ⟨hlev, ?_, isCent_zero, ?_⟩ ?_
        · simp only [addAction, Option.getD_none]
          exact isCent_add hpot hamt
        · exact centPlayers_set hcp
            ⟨isCent_sub hpstack hamt, isCent_add hpinv hamt⟩
        · exact potDelta_addAction_default cfg.bb st.actions (st.actionId + 1)
            cfg.street _ "call" _ st.potShown st.potTrue none _ none
            hpot hamt (by intro h; rcases h with h | h <;> simp at h) (by decide)
    | bet =>
        have hraw : IsCent (min (((cfg.oracle st.queries).amount : ℚ) / 100)
            (st.players.getD (cfg.actionOrder.getD i 0) default).stack) :=
          isCent_min (isCent_intDiv100 _) hpstack
        by_cases hlev0 : st.currentLevel = (0 : ℚ)
        · rw [if_pos hlev0]
          refine stepFinish_invariant cfg _ st.actions _ ⟨hraw, ?_, hraw, ?_⟩ ?_
          · simp only [addAction, Option.getD_none]
            exact isCent_add hpot hraw
          · exact centPlayers_set hcp
              ⟨isCent_sub hpstack hraw, isCent_add hpinv hraw⟩
          · exact potDelta_addAction_default cfg.bb st.actions (st.actionId + 1)
              cfg.street _ "bet" _ st.potShown st.potTrue none none none
              hpot hraw (by intro h; rcases h with h | h <;> simp at h) (by decide)
        · rw [if_neg hlev0]
          refine stepFinish_invariant cfg _ st.actions _
            ⟨isCent_add hlev hraw, ?_, hraw, ?_⟩ ?_
          · simp only [addAction, Option.getD_none]
            exact isCent_add hpot hraw
          · exact centPlayers_set hcp
              ⟨isCent_sub hpstack (isCent_min hpstack (isCent_add htc hraw)),
               isCent_add hpinv (isCent_add htc hraw)⟩
          · exact potDelta_addAction_default cfg.bb st.actions (st.actionId + 1)
              cfg.street _ "raise" _ st.potShown st.potTrue _ none none
              hpot hraw (by intro h; rcases h with h | h <;> simp at h) (by decide)
    | raise =>
        have hraw : IsCent (min (((cfg.oracle st.queries).amount : ℚ) / 100)
            (st.players.getD (cfg.actionOrder.getD i 0) default).stack) :=
          isCent_min (isCent_intDiv100 _) hpstack
        by_cases hlev0 : st.currentLevel = (0 : ℚ)
        · rw [if_pos hlev0]
          refine stepFinish_invariant cfg _ st.actions _ ⟨hraw, ?_, hraw, ?_⟩ ?_
          · simp only [addAction, Option.getD_none]
            exact isCent_add hpot hraw
          · exact centPlayers_set hcp
              ⟨isCent_sub hpstack hraw, isCent_add hpinv hraw⟩
          · exact potDelta_addAction_default cfg.bb st.actions (st.actionId + 1)
              cfg.street _ "bet" _ st.potShown st.potTrue none none none
              hpot hraw (by intro h; rcases h with h | h <;> simp at h) (by decide)
        · rw [if_neg hlev0]
          refine stepFinish_invariant cfg _ st.actions _
            ⟨isCent_add hlev hraw, ?_, hraw, ?_⟩ ?_
          · simp only [addAction, Option.getD_none]
            exact isCent_add hpot hraw
          · exact centPlayers_set hcp
              ⟨isCent_sub hpstack (isCent_min hpstack (isCent_add htc hraw)),
               isCent_add hpinv (isCent_add htc hraw)⟩
          · exact potDelta_addAction_default cfg.bb st.actions (st.actionId + 1)
              cfg.street _ "raise" _ st.potShown st.potTrue _ none none
              hpot hraw (by intro h; rcases h with h | h <;> simp at h) (by decide)

theorem runPass_invariant (cfg : RoundCfg) :
    ∀ (snapshot : List ℕ) (st : RoundState), CentState st →
      CentState (roundStateOf (runPass cfg snapshot st)) ∧
      ∀ e ∈ (roundStateOf (runPass cfg snapshot st)).actions,
        e ∈ st.actions ∨ PotDelta e := by
  intro snapshot
  induction snapshot with
  | nil =>
      intro st hst
      exact ⟨hst, fun e he => Or.inl he⟩
  | cons i rest ih =>
      intro st hst
      obtain ⟨h1, h2⟩ := stepPlayer_invariant cfg st i hst
      rw [runPass]
      cases hs : stepPlayer cfg st i with
      | inr final =>
          rw [hs] at h1 h2
          exact ⟨h1, h2⟩
      | inl st1 =>
          rw [hs] at h1 h2
          obtain ⟨h3, h4⟩ := ih st1 h1
          refine ⟨h3, fun e he => ?_⟩
          rcases h4 e he with hmem | hp
          · exact h2 e hmem
          · exact Or.inr hp

theorem roundLoop_invariant (cfg : RoundCfg) :
    ∀ (fuel : ℕ) (st : RoundState), CentState st →
      CentState (roundStateOf (roundLoop cfg fuel st)) ∧
      ∀ e ∈ (roundStateOf (roundLoop cfg fuel st)).actions,
        e ∈ st.actions ∨ PotDelta e := by
  intro fuel
  induction fuel with
  | zero =>
      intro st hst
      exact ⟨hst, fun e he => Or.inl he⟩
  | succ fuel ih =>
      intro st hst
      rw [roundLoop]
      by_cases hempty : st.toAct.isEmpty
      · rw [if_pos hempty]
        exact ⟨hst, fun e he => Or.inl he⟩
      · rw [if_neg hempty]
        obtain ⟨h1, h2⟩ := runPass_invariant cfg st.toAct st hst
        cases hs : runPass cfg st.toAct st with
        | inr final =>
            rw [hs] at h1 h2
            exact ⟨h1, h2⟩
        | inl st1 =>
            rw [hs] at h1 h2
            obtain ⟨h3, h4⟩ := ih st1 h1
            refine ⟨h3, fun e he => ?_⟩
            rcases h4 e he with hmem | hp
            · exact h2 e hmem
            · exact Or.inr hp

/-- If an event satisfies `PotDelta` then for fold and check actions the pot
is unchanged. -/
theorem potDelta_fold_check {e : ActionEvent} (hp : PotDelta e)
    (hfc : e.action_type = "fold" ∨ e.action_type = "check") :
    e.pot_after = e.pot_before := by
  rw [PotDelta, signedDeltaOf, if_pos hfc, add_zero] at hp
  exact hp

/-- C6: every `ActionEvent` appended to a hand's action log — whether by a
betting round (with any decision stream) or by the blind-posting code —
satisfies `pot_after = pot_before + signed delta`, and for fold and check
actions the delta is 0, i.e. `pot_after = pot_before`; assuming every
monetary input (current level, displayed pot, stacks, street investments and
blind sizes) is a whole number of cents, which holds for every state the
generator constructs. -/
theorem loggedActions_potDelta (street : String) (bb : ℚ)
    (oracle : ℕ → BotDecision) (players : List RoundPlayer) (actionId : ℕ)
    (potShown potTrue currentLevel : ℚ) (bbSeatIdx : ℕ)
    (actions : List ActionEvent) (occupiedSeats : List ℕ)
    (actions2 : List ActionEvent) (aid2 : ℕ) (seat2 : ℤ) (blindType : String)
    (blindSize stack2 potShown2 potTrue2 : ℚ)
    (hlev : IsCent currentLevel) (hpot : IsCent potShown)
    (hcp : CentPlayers players)
    (hbt : blindType = "small_blind" ∨ blindType = "big_blind")
    (hblind : IsCent blindSize) (hstack2 : IsCent stack2)
    (hpot2 : IsCent potShown2) :
    (∀ e ∈ (runBettingRound street bb oracle players actionId potShown potTrue
        currentLevel bbSeatIdx actions occupiedSeats).actions,
      e ∈ actions ∨ (PotDelta e ∧
        ((e.action_type = "fold" ∨ e.action_type = "check") →
          e.pot_after = e.pot_before))) ∧
    (∀ e ∈ (postBlind bb actions2 aid2 seat2 blindType blindSize stack2
        potShown2 potTrue2).1,
      e ∈ actions2 ∨ (PotDelta e ∧
        ((e.action_type = "fold" ∨ e.action_type = "check") →
          e.pot_after = e.pot_before))) := by
  constructor
  · rw [runBettingRound]
    by_cases hact : (players.filter (fun p => !p.folded && decide (0 < p.stack))).length ≤ 1
    · rw [if_pos hact]
      exact fun e he => Or.inl he
    · rw [if_neg hact]
      simp only
      have hst1 : CentState
          { players := players, currentLevel := currentLevel,
            potShown := potShown, potTrue := potTrue, actionId := actionId,
            actions := actions,
            toAct := List.range (actionOrderOf players occupiedSeats
              (computeOrder occupiedSeats street bbSeatIdx)).length,
            lastAggressor := none, lastAggTrueAmt := 0, lastAggShownAmt := 0,
            queries := 0 } := ⟨hlev, hpot, isCent_zero, hcp⟩
      obtain ⟨h1, h2⟩ := roundLoop_invariant
        { street := street, bb := bb,
          actionOrder := actionOrderOf players occupiedSeats
            (computeOrder occupiedSeats street bbSeatIdx),
          oracle := oracle } maxActions _ hst1
      cases hs : roundLoop
          { street := street, bb := bb,
            actionOrder := actionOrderOf players occupiedSeats
              (computeOrder occupiedSeats street bbSeatIdx),
            oracle := oracle } maxActions
          { players := players, currentLevel := currentLevel,
            potShown := potShown, potTrue := potTrue, actionId := actionId,
            actions := actions,
            toAct := List.range (actionOrderOf players occupiedSeats
              (computeOrder occupiedSeats street bbSeatIdx)).length,
            lastAggressor := none, lastAggTrueAmt := 0, lastAggShownAmt := 0,
            queries := 0 } with
      | inr final =>
          rw [hs] at h1 h2
          exact fun e he =>
            (h2 e he).imp id (fun hp => ⟨hp, potDelta_fold_check hp⟩)
      | inl stEnd =>
          rw [hs] at h1 h2
          obtain ⟨h3, h4⟩ := uncalledReturn_invariant
            { street := street, bb := bb,
              actionOrder := actionOrderOf players occupiedSeats
                (computeOrder occupiedSeats street bbSeatIdx),
              oracle := oracle } stEnd h1
          intro e he
          rcases h4 e he with hmem | hp
          · exact (h2 e hmem).imp id (fun hp => ⟨hp, potDelta_fold_check hp⟩)
          · exact Or.inr ⟨hp, potDelta_fold_check hp⟩
  · intro e he
    have := potDelta_addAction_default bb actions2 aid2 "preflop" seat2
      blindType (min blindSize stack2) potShown2 potTrue2 none none none
      hpot2 (isCent_min hblind hstack2)
      (by rcases hbt with hb | hb <;> (rw [hb]; intro h; rcases h with h | h <;> simp at h))
      (by rcases hbt with hb | hb <;> (rw [hb]; decide))
    rw [postBlind] at he
    exact (this e he).imp id (fun hp => ⟨hp, potDelta_fold_check hp⟩)

/-- Witness for C6 at a concrete one-player flop round (any events it logs
satisfy the pot identity) and a concrete small-blind posting. -/
theorem loggedActions_potDelta_witness :
    (∀ e ∈ (runBettingRound "flop" (5 / 100)
        (fun _ => ⟨ActionType.check, 0, "medium_check"⟩)
        [⟨1, 1, false, 0, 0⟩] 0 0 0 0 0 [] [0]).actions,
      e ∈ ([] : List ActionEvent) ∨ (PotDelta e ∧
        ((e.action_type = "fold" ∨ e.action_type = "check") →
          e.pot_after = e.pot_before))) ∧
    (∀ e ∈ (postBlind (5 / 100) [] 1 2 "small_blind" (2 / 100) 5 0 0).1,
      e ∈ ([] : List ActionEvent) ∨ (PotDelta e ∧
        ((e.action_type = "fold" ∨ e.action_type = "check") →
          e.pot_after = e.pot_before))) :=
  loggedActions_potDelta "flop" (5 / 100)
    (fun _ => ⟨ActionType.check, 0, "medium_check"⟩)
    [⟨1, 1, false, 0, 0⟩] 0 0 0 0 0 [] [0] [] 1 2 "small_blind"
    (2 / 100) 5 0 0
    ⟨0, by norm_num⟩ ⟨0, by norm_num⟩
    (by
      intro p hp
      simp only [List.mem_singleton] at hp
      subst hp
      exact ⟨⟨100, by norm_num⟩, ⟨0, by norm_num⟩⟩)
    (Or.inl rfl) ⟨2, by norm_num⟩ ⟨500, by norm_num⟩ ⟨0, by norm_num⟩

/-! ## C2: loop cap and number of logged decisions

`_run_betting_round` caps the `while` loop at 60 *passes* (`count` counts
passes over `list(to_act)`, not individual decisions); each pass can take up
to one decision per player in the snapshot. -/

/-- The invariant the betting round maintains on the to-act set: no
duplicates and all entries index into `action_order`. -/
def ToActOk (cfg : RoundCfg) (st : RoundState) : Prop :=
  st.toAct.Nodup ∧ ∀ j ∈ st.toAct, j < cfg.actionOrder.length

theorem nodup_bounded_length {l : List ℕ} {n : ℕ} (hnd : l.Nodup)
    (hb : ∀ j ∈ l, j < n) : l.length ≤ n := by
  have hsub : l.toFinset ⊆ Finset.range n := by
    intro j hj
    exact Finset.mem_range.mpr (hb j (List.mem_toFinset.mp hj))
  have := Finset.card_le_card hsub
  rwa [List.toFinset_card_of_nodup hnd, Finset.card_range] at this

theorem toActOk_erase {cfg : RoundCfg} {st : RoundState} (h : ToActOk cfg st)
    (i : ℕ) : (st.toAct.erase i).Nodup ∧
      ∀ j ∈ st.toAct.erase i, j < cfg.actionOrder.length :=
  ⟨h.1.erase i, fun j hj => h.2 j (List.mem_of_mem_erase hj)⟩

theorem toActOk_reset (cfg : RoundCfg) (players : List RoundPlayer) (i : ℕ) :
    (resetToAct cfg players i).Nodup ∧
      ∀ j ∈ resetToAct cfg players i, j < cfg.actionOrder.length := by
  constructor
  · exact (List.nodup_range _).filter _
  · intro j hj
    have := List.mem_of_mem_filter hj
    exact List.mem_range.mp this

theorem stepPlayer_bound (cfg : RoundCfg) (st : RoundState) (i : ℕ)
    (h : ToActOk cfg st) :
    (∀ st2, stepPlayer cfg st i = Sum.inl st2 →
      ToActOk cfg st2 ∧ st2.actions.length ≤ st.actions.length + 1) ∧
    (∀ st2, stepPlayer cfg st i = Sum.inr st2 →
      st2.actions.length ≤ st.actions.length + 2) := by
  have huncalled : ∀ s : RoundState,
      (uncalledReturn cfg s).actions.length ≤ s.actions.length + 1 := by
    intro s
    cases hla : s.lastAggressor with
    | none => simp [uncalledReturn, hla]
    | some la =>
        by_cases hgt : 0 < s.lastAggShownAmt
        · simp only [uncalledReturn, hla, if_pos hgt]
          simp [addAction]
        · simp only [uncalledReturn, hla, if_neg hgt]
          omega
  rw [stepPlayer]
  by_cases hskip : ((st.players.getD (cfg.actionOrder.getD i 0) default).folded ||
      decide ((st.players.getD (cfg.actionOrder.getD i 0) default).stack ≤ 0)) = true
  · rw [if_pos hskip]
    constructor
    · intro st2 h2
      cases h2
      exact ⟨toActOk_erase h i, Nat.le_succ _⟩
    · intro st2 h2
      cases h2
  · rw [if_neg hskip]
    simp only
    have hfin : ∀ st1 : RoundState,
        st1.actions.length ≤ st.actions.length + 1 →
        (st1.toAct.Nodup ∧ ∀ j ∈ st1.toAct, j < cfg.actionOrder.length) →
        (∀ st2, (if unfoldedCount st1.players ≤ 1
            then Sum.inr (uncalledReturn cfg st1) else Sum.inl st1) = Sum.inl st2 →
          ToActOk cfg st2 ∧ st2.actions.length ≤ st.actions.length + 1) ∧
        (∀ st2, (if unfoldedCount st1.players ≤ 1
            then Sum.inr (uncalledReturn cfg st1) else Sum.inl st1) = Sum.inr st2 →
          st2.actions.length ≤ st.actions.length + 2) := by
      intro st1 hlen hok
      by_cases hexit : unfoldedCount st1.players ≤ 1
      · rw [if_pos hexit]
        refine ⟨(fun st2 h2 => by cases h2), fun st2 h2 => ?_⟩
        cases h2
        have := huncalled st1
        omega
      · rw [if_neg hexit]
        refine ⟨fun st2 h2 => ?_, fun st2 h2 => by cases h2⟩
        cases h2
        exact ⟨hok, hlen⟩
    cases hda : (cfg.oracle st.queries).action with
    | fold =>
        exact hfin _ (by simp [addAction]) (toActOk_erase h i)
    | check =>
        exact hfin _ (by simp [addAction]) (toActOk_erase h i)
    | call =>
        exact hfin _ (by simp [addAction]) (toActOk_erase h i)
    | bet =>
        by_cases hlev0 : st.currentLevel = (0 : ℚ)
        · rw [if_pos hlev0]
          exact hfin _ (by simp [addAction]) (toActOk_reset cfg _ i)
        · rw [if_neg hlev0]
          exact hfin _ (by simp [addAction]) (toActOk_reset cfg _ i)
    | raise =>
        by_cases hlev0 : st.currentLevel = (0 : ℚ)
        · rw [if_pos hlev0]
          exact hfin _ (by simp [addAction]) (toActOk_reset cfg _ i)
        · rw [if_neg hlev0]
          exact hfin _ (by simp [addAction]) (toActOk_reset cfg _ i)

theorem runPass_bound (cfg : RoundCfg) :
    ∀ (snapshot : List ℕ) (st : RoundState), ToActOk cfg st →
      (∀ st2, runPass cfg snapshot st = Sum.inl st2 →
        ToActOk cfg st2 ∧
          st2.actions.length ≤ st.actions.length + snapshot.length) ∧
      (∀ st2, runPass cfg snapshot st = Sum.inr st2 →
        st2.actions.length ≤ st.actions.length + snapshot.length + 1) := by
  intro snapshot
  induction snapshot with
  | nil =>
      intro st hok
      refine ⟨fun st2 h2 => ?_, fun st2 h2 => by cases h2⟩
      rw [runPass] at h2
      cases h2
      exact ⟨hok, by omega⟩
  | cons i rest ih =>
      intro st hok
      obtain ⟨hstep1, hstep2⟩ := stepPlayer_bound cfg st i hok
      rw [runPass]
      cases hs : stepPlayer cfg st i with
      | inr final =>
          refine ⟨(fun st2 h2 => by cases h2), fun st2 h2 => ?_⟩
          cases h2
          have := hstep2 _ hs
          simp only [List.length_cons]
          omega
      | inl st1 =>
          obtain ⟨hok1, hlen1⟩ := hstep1 st1 hs
          obtain ⟨hrec1, hrec2⟩ := ih st1 hok1
          refine ⟨fun st2 h2 => ?_, fun st2 h2 => ?_⟩
          · obtain ⟨hok2, hlen2⟩ := hrec1 st2 h2
            refine ⟨hok2, ?_⟩
            simp only [List.length_cons]
            omega
          · have := hrec2 st2 h2
            simp only [List.length_cons]
            omega

theorem roundLoop_bound (cfg : RoundCfg) :
    ∀ (fuel : ℕ) (st : RoundState), ToActOk cfg st →
      (∀ st2, roundLoop cfg fuel st = Sum.inl st2 →
        st2.actions.length ≤
          st.actions.length + fuel * cfg.actionOrder.length) ∧
      (∀ st2, roundLoop cfg fuel st = Sum.inr st2 →
        st2.actions.length ≤
          st.actions.length + fuel * cfg.actionOrder.length + 1) := by
  intro fuel
  induction fuel with
  | zero =>
      intro st hok
      refine ⟨fun st2 h2 => ?_, fun st2 h2 => by cases h2⟩
      rw [roundLoop] at h2
      cases h2
      omega
  | succ fuel ih =>
      intro st hok
      have hsnaplen : st.toAct.length ≤ cfg.actionOrder.length :=
        nodup_bounded_length hok.1 hok.2
      rw [roundLoop]
      by_cases hempty : st.toAct.isEmpty
      · rw [if_pos hempty]
        refine ⟨fun st2 h2 => ?_, fun st2 h2 => by cases h2⟩
        cases h2
        omega
      · rw [if_neg hempty]
        obtain ⟨hp1, hp2⟩ := runPass_bound cfg st.toAct st hok
        cases hs : runPass cfg st.toAct st with
        | inr final =>
            refine ⟨(fun st2 h2 => by cases h2), fun st2 h2 => ?_⟩
            cases h2
            have := hp2 _ hs
            have hmul : (fuel + 1) * cfg.actionOrder.length =
                fuel * cfg.actionOrder.length + cfg.actionOrder.length := by ring
            omega
        | inl st1 =>
            obtain ⟨hok1, hlen1⟩ := hp1 st1 hs
            obtain ⟨hr1, hr2⟩ := ih st1 hok1
            have hmul : (fuel + 1) * cfg.actionOrder.length =
                fuel * cfg.actionOrder.length + cfg.actionOrder.length := by ring
            refine ⟨fun st2 h2 => ?_, fun st2 h2 => ?_⟩
            · have := hr1 st2 h2
              omega
            · have := hr2 st2 h2
              omega

/-- C2 amended: the betting-round loop makes at most `max_actions = 60`
passes over the to-act snapshot; each pass queries each snapshot member at
most once, so a round logs at most `60 * |action_order|` player decisions
plus at most one `uncalled_bet_return` — but not at most 60 decisions.  The
loop returns when the to-act set empties, when the 60-pass cap is hit, or
when at most one un-folded player remains (the early uncalled-return exit).
The Lean loop is structurally terminating with fuel `maxActions`. -/
theorem runBettingRound_action_bound (street : String) (bb : ℚ)
    (oracle : ℕ → BotDecision) (players : List RoundPlayer) (actionId : ℕ)
    (potShown potTrue currentLevel : ℚ) (bbSeatIdx : ℕ)
    (actions : List ActionEvent) (occupiedSeats : List ℕ) :
    (runBettingRound street bb oracle players actionId potShown potTrue
        currentLevel bbSeatIdx actions occupiedSeats).actions.length ≤
      actions.length + maxActions * (actionOrderOf players occupiedSeats
        (computeOrder occupiedSeats street bbSeatIdx)).length + 1 := by
  have huncalled : ∀ (cfg : RoundCfg) (s : RoundState),
      (uncalledReturn cfg s).actions.length ≤ s.actions.length + 1 := by
    intro cfg s
    cases hla : s.lastAggressor with
    | none => simp [uncalledReturn, hla]
    | some la =>
        by_cases hgt : 0 < s.lastAggShownAmt
        · simp only [uncalledReturn, hla, if_pos hgt]
          simp [addAction]
        · simp only [uncalledReturn, hla, if_neg hgt]
          omega
  rw [runBettingRound]
  by_cases hact : (players.filter (fun p => !p.folded && decide (0 < p.stack))).length ≤ 1
  · rw [if_pos hact]
    show actions.length ≤ actions.length + maxActions * (actionOrderOf players
      occupiedSeats (computeOrder occupiedSeats street bbSeatIdx)).length + 1
    omega
  · rw [if_neg hact]
    simp only
    set cfg : RoundCfg :=
      { street := street, bb := bb,
        actionOrder := actionOrderOf players occupiedSeats
          (computeOrder occupiedSeats street bbSeatIdx),
        oracle := oracle } with hcfg
    set st1 : RoundState :=
      { players := players, currentLevel := currentLevel,
        potShown := potShown, potTrue := potTrue, actionId := actionId,
        actions := actions,
        toAct := List.range cfg.actionOrder.length,
        lastAggressor := none, lastAggTrueAmt := 0, lastAggShownAmt := 0,
        queries := 0 } with hst1
    have hok : ToActOk cfg st1 := by
      constructor
      · exact List.nodup_range _
      · intro j hj
        exact List.mem_range.mp hj
    have hacts : st1.actions = actions := rfl
    have hco : cfg.actionOrder = actionOrderOf players occupiedSeats
        (computeOrder occupiedSeats street bbSeatIdx) := rfl
    obtain ⟨hb1, hb2⟩ := roundLoop_bound cfg maxActions st1 hok
    cases hs : roundLoop cfg maxActions st1 with
    | inr final =>
        have hb := hb2 final hs
        rw [hacts, hco] at hb
        exact hb
    | inl stEnd =>
        have h1 := hb1 stEnd hs
        rw [hacts, hco] at h1
        have h2 := huncalled cfg stEnd
        show (uncalledReturn cfg stEnd).actions.length ≤ actions.length +
          maxActions * (actionOrderOf players occupiedSeats
            (computeOrder occupiedSeats street bbSeatIdx)).length + 1
        omega

/-- A two-player flop round whose agent always answers "bet 0": with
`current_level = 0` every decision takes the fresh-bet branch with
`bet_size = 0`, which resets the to-act set to the other player every time,
so the loop only stops at the pass cap. -/
def betLoopCfg : RoundCfg :=
  { street := "flop", bb := 1, actionOrder := [0, 1],
    oracle := fun _ => ⟨ActionType.bet, 0, "weak_bluff"⟩ }

/-- The round state reached while the bet-0 loop runs: only the action log,
the counters, the to-act set and the last aggressor change. -/
def betLoopSt (acts : List ActionEvent) (aid q : ℕ) (toAct : List ℕ)
    (la : Option ℕ) : RoundState :=
  { players := [⟨1, 1, false, 0, 0⟩, ⟨2, 1, false, 0, 0⟩],
    currentLevel := 0, potShown := 0, potTrue := 0, actionId := aid,
    actions := acts, toAct := toAct, lastAggressor := la,
    lastAggTrueAmt := 0, lastAggShownAmt := 0, queries := q }

/-- The logged record of one zero-sized bet. -/
def zeroBetEvt (aid : ℕ) (seat : ℤ) : ActionEvent :=
  ⟨aid, "flop", seat, "bet", 0, none, none, 0, 0, 0⟩

theorem betLoop_step0 (acts : List ActionEvent) (aid q : ℕ) (toAct : List ℕ)
    (la : Option ℕ) :
    stepPlayer betLoopCfg (betLoopSt acts aid q toAct la) 0 =
      Sum.inl (betLoopSt (acts ++ [zeroBetEvt (aid + 1) 1]) (aid + 1) (q + 1)
        [1] (some 0)) := by
  norm_num [stepPlayer, betLoopCfg, betLoopSt, zeroBetEvt, addAction,
    resetToAct, unfoldedCount, round2, round1, round_eq, List.range_succ,
    List.filter]

theorem betLoop_step1 (acts : List ActionEvent) (aid q : ℕ) (toAct : List ℕ)
    (la : Option ℕ) :
    stepPlayer betLoopCfg (betLoopSt acts aid q toAct la) 1 =
      Sum.inl (betLoopSt (acts ++ [zeroBetEvt (aid + 1) 2]) (aid + 1) (q + 1)
        [0] (some 1)) := by
  norm_num [stepPlayer, betLoopCfg, betLoopSt, zeroBetEvt, addAction,
    resetToAct, unfoldedCount, round2, round1, round_eq, List.range_succ,
    List.filter]

theorem betLoop_run : ∀ (fuel j : ℕ), j = 0 ∨ j = 1 →
    ∀ (acts : List ActionEvent) (aid q : ℕ) (la : Option ℕ),
    ∃ acts2 aid2 q2 j2 la2,
      roundLoop betLoopCfg fuel (betLoopSt acts aid q [j] la) =
        Sum.inl (betLoopSt acts2 aid2 q2 [j2] la2) ∧
      acts2.length = acts.length + fuel := by
  intro fuel
  induction fuel with
  | zero =>
      intro j hj acts aid q la
      exact ⟨acts, aid, q, j, la, rfl, by omega⟩
  | succ fuel ih =>
      intro j hj acts aid q la
      rw [roundLoop, if_neg (by simp [betLoopSt])]
      rcases hj with rfl | rfl
      · have hpass : runPass betLoopCfg (betLoopSt acts aid q [0] la).toAct
            (betLoopSt acts aid q [0] la) =
            Sum.inl (betLoopSt (acts ++ [zeroBetEvt (aid + 1) 1]) (aid + 1)
              (q + 1) [1] (some 0)) := by
          simp only [runPass, betLoop_step0]
        rw [hpass]
        obtain ⟨acts2, aid2, q2, j2, la2, heq, hlen⟩ :=
          ih 1 (Or.inr rfl) (acts ++ [zeroBetEvt (aid + 1) 1]) (aid + 1)
            (q + 1) (some 0)
        refine ⟨acts2, aid2, q2, j2, la2, heq, ?_⟩
        simp only [List.length_append, List.length_singleton] at hlen
        omega
      · have hpass : runPass betLoopCfg (betLoopSt acts aid q [1] la).toAct
            (betLoopSt acts aid q [1] la) =
            Sum.inl (betLoopSt (acts ++ [zeroBetEvt (aid + 1) 2]) (aid + 1)
              (q + 1) [0] (some 1)) := by
          simp only [runPass, betLoop_step1]
        rw [hpass]
        obtain ⟨acts2, aid2, q2, j2, la2, heq, hlen⟩ :=
          ih 0 (Or.inl rfl) (acts ++ [zeroBetEvt (aid + 1) 2]) (aid + 1)
            (q + 1) (some 1)
        refine ⟨acts2, aid2, q2, j2, la2, heq, ?_⟩
        simp only [List.length_append, List.length_singleton] at hlen
        omega

theorem uncalled_betLoopSt (acts : List ActionEvent) (aid q : ℕ)
    (toAct : List ℕ) (la : Option ℕ) :
    uncalledReturn betLoopCfg (betLoopSt acts aid q toAct la) =
      betLoopSt acts aid q toAct la := by
  cases la with
  | none => simp [uncalledReturn, betLoopSt]
  | some x => simp [uncalledReturn, betLoopSt]

/-- C2 counterexample: a betting round in which 61 player decisions are
taken and logged in one street.  Both players keep answering "bet 0": the
first pass logs 2 decisions and every further pass logs 1, and the loop only
stops when the 60-pass cap is hit, after 61 logged decisions — so "at most
60 player decisions are taken and logged in one street's round" is false. -/
theorem runBettingRound_logs_61_decisions :
    (runBettingRound "flop" 1 (fun _ => ⟨ActionType.bet, 0, "weak_bluff"⟩)
        [⟨1, 1, false, 0, 0⟩, ⟨2, 1, false, 0, 0⟩] 0 0 0 0 0 []
        [0, 1]).actions.length = 61 ∧
    ¬ ((runBettingRound "flop" 1 (fun _ => ⟨ActionType.bet, 0, "weak_bluff"⟩)
        [⟨1, 1, false, 0, 0⟩, ⟨2, 1, false, 0, 0⟩] 0 0 0 0 0 []
        [0, 1]).actions.length ≤ 60) := by
  have h0 : runBettingRound "flop" 1 (fun _ => ⟨ActionType.bet, 0, "weak_bluff"⟩)
      [⟨1, 1, false, 0, 0⟩, ⟨2, 1, false, 0, 0⟩] 0 0 0 0 0 [] [0, 1] =
      (match roundLoop betLoopCfg maxActions (betLoopSt [] 0 0 [0, 1] none) with
       | Sum.inr final => final
       | Sum.inl stEnd => uncalledReturn betLoopCfg stEnd) := by
    rw [runBettingRound, if_neg (by norm_num [List.filter])]
    rfl
  have h1 : roundLoop betLoopCfg maxActions (betLoopSt [] 0 0 [0, 1] none) =
      roundLoop betLoopCfg 59
        (betLoopSt [zeroBetEvt 1 1, zeroBetEvt 2 2] 2 2 [0] (some 1)) := by
    have hpass2 : runPass betLoopCfg [0, 1] (betLoopSt [] 0 0 [0, 1] none) =
        Sum.inl (betLoopSt [zeroBetEvt 1 1, zeroBetEvt 2 2] 2 2 [0] (some 1)) := by
      simp only [runPass, betLoop_step0, betLoop_step1]
      norm_num
    rw [show maxActions = 59 + 1 from rfl, roundLoop,
      if_neg (by simp [betLoopSt])]
    have htoact : (betLoopSt [] 0 0 [0, 1] none).toAct = [0, 1] := rfl
    rw [htoact, hpass2]
  obtain ⟨acts2, aid2, q2, j2, la2, heq, hlen⟩ :=
    betLoop_run 59 0 (Or.inl rfl) [zeroBetEvt 1 1, zeroBetEvt 2 2] 2 2 (some 1)
  have hfinal : runBettingRound "flop" 1
      (fun _ => ⟨ActionType.bet, 0, "weak_bluff"⟩)
      [⟨1, 1, false, 0, 0⟩, ⟨2, 1, false, 0, 0⟩] 0 0 0 0 0 [] [0, 1] =
      betLoopSt acts2 aid2 q2 [j2] la2 := by
    rw [h0, h1, heq]
    exact uncalled_betLoopSt acts2 aid2 q2 [j2] la2
  rw [hfinal]
  simp only [List.length_cons, List.length_nil] at hlen
  constructor
  · show acts2.length = 61
    omega
  · show ¬ (acts2.length ≤ 60)
    omega

/-! ## C9/C10: canonicalization (button rotation and seat contiguization)

From `PokerHandGenerator._rotate_to_button_one` (lines 671-703) and
`PokerHandGenerator._contiguize_seats` (lines 705-727).  The hand record
mirrors the dict shape of `V0_JSON_HAND`; the opaque `HERO_UID` constant is
a parameter. -/

structure HandMeta where
  game_type : String
  limit_type : String
  max_seats : ℤ
  hero_seat : ℤ
  hand_ended_on_street : Option String
  button_seat : ℤ
  sb : ℚ
  bb : ℚ
  ante : ℚ
  rng_seed_commitment : Option String
  deriving DecidableEq, Repr

structure PlayerRec where
  player_uid : String
  seat : ℤ
  starting_stack : ℚ
  hole_cards : Option (List String)
  showed_hand : Bool
  deriving DecidableEq, Repr

structure StreetRec where
  street : String
  board_cards : List String
  deriving DecidableEq, Repr

structure HandRecord where
  metadata : HandMeta
  players : List PlayerRec
  streets : List StreetRec
  actions : List ActionEvent
  outcome : OutcomeRec
  label : String

/-- `rotate_seat(seat) = ((seat - 1 - shift) % max_seats) + 1` (line 678),
with Python `%` semantics (`Int.emod`). -/
def rotateSeat (shift m s : ℤ) : ℤ := (s - 1 - shift) % m + 1

/-- `PokerHandGenerator._rotate_to_button_one` (lines 671-703).  The source
scans players, remembering the (last) hero's new seat; sorting uses Python's
stable ascending sort. -/
def rotateToButtonOne (heroUid : String) (hand : HandRecord) : HandRecord :=
  let button := hand.metadata.button_seat
  let m := hand.metadata.max_seats
  let shift := (button - 1) % m
  if shift = 0 then hand
  else
    let rotatedPlayers := hand.players.map
      (fun p => { p with seat := rotateSeat shift m p.seat })
    let newHeroSeat : Option ℤ :=
      ((hand.players.filter (fun p => p.player_uid == heroUid)).getLast?).map
        (fun p => rotateSeat shift m p.seat)
    { hand with
      players := List.insertionSort (fun a b => a.seat ≤ b.seat) rotatedPlayers
      actions := hand.actions.map
        (fun a => { a with actor_seat := rotateSeat shift m a.actor_seat })
      metadata := { hand.metadata with
        button_seat := 1
        hero_seat := match newHeroSeat with
          | some s => s
          | none => hand.metadata.hero_seat } }

/-- `seat_map.get(s, s)`: the contiguization map with identity default (the
players' seats are always in `seats`, where this agrees with the source's
direct `seat_map[...]` lookup). -/
def seatMapGet (seats : List ℤ) (s : ℤ) : ℤ :=
  if s ∈ seats then (seats.indexOf s : ℤ) + 1 else s

/-- `PokerHandGenerator._contiguize_seats` (lines 705-727):
`seats = sorted({p["seat"]})`; if already `1..k` return unchanged, else
renumber players, actions and the (truthy) metadata seats through
`seat_map`. -/
def contiguizeSeats (hand : HandRecord) : HandRecord :=
  let seats := List.insertionSort (fun a b => a ≤ b)
    (hand.players.map (fun p => p.seat)).dedup
  if seats = List.map (fun n : ℕ => (n : ℤ) + 1) (List.range seats.length) then hand
  else
    { hand with
      players := List.insertionSort (fun a b => a.seat ≤ b.seat)
        (hand.players.map (fun p => { p with seat := seatMapGet seats p.seat }))
      actions := hand.actions.map
        (fun a => { a with actor_seat := seatMapGet seats a.actor_seat })
      metadata := { hand.metadata with
        hero_seat := if hand.metadata.hero_seat ≠ 0
          then seatMapGet seats hand.metadata.hero_seat
          else hand.metadata.hero_seat
        button_seat := if hand.metadata.button_seat ≠ 0
          then seatMapGet seats hand.metadata.button_seat
          else hand.metadata.button_seat } }

theorem rotateSeat_range (shift m s : ℤ) (hm : 0 < m) :
    1 ≤ rotateSeat shift m s ∧ rotateSeat shift m s ≤ m := by
  rw [rotateSeat]
  have h1 : 0 ≤ (s - 1 - shift) % m := Int.emod_nonneg _ (ne_of_gt hm)
  have h2 : (s - 1 - shift) % m < m := Int.emod_lt_of_pos _ hm
  omega

theorem rotateSeat_inj (shift m s t : ℤ) (hm : 0 < m)
    (hs1 : 1 ≤ s) (hs2 : s ≤ m) (ht1 : 1 ≤ t) (ht2 : t ≤ m)
    (heq : rotateSeat shift m s = rotateSeat shift m t) : s = t := by
  rw [rotateSeat, rotateSeat] at heq
  have hmod : (s - 1 - shift) % m = (t - 1 - shift) % m := by omega
  have hdvd : m ∣ (s - 1 - shift) - (t - 1 - shift) :=
    Int.dvd_of_emod_eq_zero
      (Int.emod_eq_emod_iff_emod_sub_eq_zero.mp hmod)
  have hsub : (s - 1 - shift) - (t - 1 - shift) = s - t := by ring
  rw [hsub] at hdvd
  have habs : |s - t| < m := by
    rw [abs_lt]
    omega
  have := Int.eq_zero_of_abs_lt_dvd hdvd habs
  omega

theorem rotateSeat_button (m b : ℤ) (hm : 0 < m) :
    rotateSeat ((b - 1) % m) m b = 1 := by
  rw [rotateSeat]
  have h1 : (b - 1 - (b - 1) % m) % m = 0 := by
    rw [Int.sub_emod, Int.emod_emod_of_dvd _ dvd_rfl]
    simp
  omega

theorem rotate_props (heroUid : String) (hand : HandRecord)
    (hm : 0 < hand.metadata.max_seats)
    (hrange : ∀ p ∈ hand.players, 1 ≤ p.seat ∧ p.seat ≤ hand.metadata.max_seats)
    (hnd : (hand.players.map (fun p => p.seat)).Nodup)
    (hbtn : ∃ p ∈ hand.players, p.seat = hand.metadata.button_seat) :
    (∀ p ∈ (rotateToButtonOne heroUid hand).players,
       1 ≤ p.seat ∧ p.seat ≤ hand.metadata.max_seats) ∧
    ((rotateToButtonOne heroUid hand).players.map (fun p => p.seat)).Nodup ∧
    (∃ p ∈ (rotateToButtonOne heroUid hand).players, p.seat = 1) ∧
    (rotateToButtonOne heroUid hand).metadata.button_seat = 1 ∧
    (rotateToButtonOne heroUid hand).players.length = hand.players.length := by
  obtain ⟨pb, hpbmem, hpbseat⟩ := hbtn
  obtain ⟨hb1, hb2⟩ := hrange pb hpbmem
  rw [hpbseat] at hb1 hb2
  by_cases hsh : (hand.metadata.button_seat - 1) % hand.metadata.max_seats = 0
  · have hbtn1 : hand.metadata.button_seat = 1 := by
      have hdvd : hand.metadata.max_seats ∣ hand.metadata.button_seat - 1 :=
        Int.dvd_of_emod_eq_zero hsh
      have habs : |hand.metadata.button_seat - 1| < hand.metadata.max_seats := by
        rw [abs_lt]; omega
      have := Int.eq_zero_of_abs_lt_dvd hdvd habs
      omega
    rw [rotateToButtonOne]
    simp only [if_pos hsh]
    exact ⟨hrange, hnd, ⟨pb, hpbmem, by rw [hpbseat, hbtn1]⟩, hbtn1, trivial⟩
  · rw [rotateToButtonOne]
    simp only [if_neg hsh]
    have hperm : (List.insertionSort (fun a b => a.seat ≤ b.seat)
        (hand.players.map (fun p =>
          { p with seat := rotateSeat ((hand.metadata.button_seat - 1) %
              hand.metadata.max_seats) hand.metadata.max_seats p.seat }))).Perm
        (hand.players.map (fun p =>
          { p with seat := rotateSeat ((hand.metadata.button_seat - 1) %
              hand.metadata.max_seats) hand.metadata.max_seats p.seat })) :=
      List.perm_insertionSort _ _
    refine ⟨?_, ?_, ?_, trivial, ?_⟩
    · intro p hp
      have hp2 := hperm.mem_iff.mp hp
      obtain ⟨q, hq, rfl⟩ := List.mem_map.mp hp2
      exact rotateSeat_range _ _ _ hm
    · have hfact : hand.players.map (fun p =>
          rotateSeat ((hand.metadata.button_seat - 1) % hand.metadata.max_seats)
            hand.metadata.max_seats p.seat) =
          (hand.players.map (fun p => p.seat)).map
            (rotateSeat ((hand.metadata.button_seat - 1) %
              hand.metadata.max_seats) hand.metadata.max_seats) := by
        rw [List.map_map]
        rfl
      have hmapped := hperm.map (fun p => p.seat)
      refine hmapped.nodup_iff.mpr ?_
      rw [List.map_map]
      show (hand.players.map (fun p =>
        rotateSeat ((hand.metadata.button_seat - 1) % hand.metadata.max_seats)
          hand.metadata.max_seats p.seat)).Nodup
      rw [hfact]
      refine List.Nodup.map_on ?_ hnd
      intro x hx y hy hxy
      obtain ⟨px, hpx, rfl⟩ := List.mem_map.mp hx
      obtain ⟨py, hpy, rfl⟩ := List.mem_map.mp hy
      obtain ⟨hx1, hx2⟩ := hrange px hpx
      obtain ⟨hy1, hy2⟩ := hrange py hpy
      exact rotateSeat_inj _ _ _ _ hm hx1 hx2 hy1 hy2 hxy
    · refine ⟨{ pb with seat := rotateSeat ((hand.metadata.button_seat - 1) %
          hand.metadata.max_seats) hand.metadata.max_seats pb.seat }, ?_, ?_⟩
      · exact hperm.mem_iff.mpr (List.mem_map.mpr ⟨pb, hpbmem, rfl⟩)
      · show rotateSeat _ _ pb.seat = 1
        rw [hpbseat]
        exact rotateSeat_button _ _ hm
    · rw [hperm.length_eq, List.length_map]

theorem sorted_indexOf_map {s : List ℤ} (hnd : s.Nodup) :
    s.map (fun x => (s.indexOf x : ℤ) + 1) =
      List.map (fun n : ℕ => (n : ℤ) + 1) (List.range s.length) := by
  refine List.ext_getElem (by simp) ?_
  intro i h1 h2
  simp only [List.getElem_map, List.getElem_range]
  have := List.indexOf_getElem hnd i (by simpa using h1)
  rw [this]

theorem sorted_indexOf_one {s : List ℤ}
    (hsort : List.Sorted (fun a b => a ≤ b) s)
    (hmem : (1 : ℤ) ∈ s) (hge : ∀ x ∈ s, 1 ≤ x) : s.indexOf 1 = 0 := by
  cases s with
  | nil => simp at hmem
  | cons hd tl =>
      have hhd : hd = 1 := by
        rcases List.mem_cons.mp hmem with h | h
        · omega
        · have h1 := hge hd (List.mem_cons_self hd tl)
          have h2 : hd ≤ 1 := (List.sorted_cons.mp hsort).1 1 h
          omega
      rw [hhd]
      exact List.indexOf_cons_self 1 tl

theorem contiguize_props (hand : HandRecord)
    (hge : ∀ p ∈ hand.players, 1 ≤ p.seat)
    (hnd : (hand.players.map (fun p => p.seat)).Nodup)
    (hbtn : hand.metadata.button_seat = 1)
    (hbmem : ∃ p ∈ hand.players, p.seat = 1) :
    (contiguizeSeats hand).metadata.button_seat = 1 ∧
    ((contiguizeSeats hand).players.map (fun p => p.seat)).Perm
      (List.map (fun n : ℕ => (n : ℤ) + 1) (List.range hand.players.length)) := by
  rw [contiguizeSeats]
  set sts := List.insertionSort (fun a b => a ≤ b)
    (hand.players.map (fun p => p.seat)).dedup with hstsdef
  have hded : (hand.players.map (fun p => p.seat)).dedup =
      hand.players.map (fun p => p.seat) := List.dedup_eq_self.mpr hnd
  have hseatsperm : sts.Perm (hand.players.map (fun p => p.seat)) := by
    rw [hstsdef, hded]
    exact List.perm_insertionSort _ _
  have hseatsnd : sts.Nodup := hseatsperm.nodup_iff.mpr hnd
  have hseatssort : List.Sorted (fun a b : ℤ => a ≤ b) sts :=
    List.sorted_insertionSort _ _
  have hseatslen : sts.length = hand.players.length := by
    rw [hseatsperm.length_eq, List.length_map]
  have hseatsge : ∀ x ∈ sts, (1 : ℤ) ≤ x := by
    intro x hx
    have := hseatsperm.mem_iff.mp hx
    obtain ⟨p, hp, rfl⟩ := List.mem_map.mp this
    exact hge p hp
  have honemem : (1 : ℤ) ∈ sts := by
    obtain ⟨p, hp, hp1⟩ := hbmem
    exact hseatsperm.mem_iff.mpr (List.mem_map.mpr ⟨p, hp, hp1⟩)
  by_cases hcont : sts = List.map (fun n : ℕ => (n : ℤ) + 1) (List.range sts.length)
  · rw [if_pos hcont]
    refine ⟨hbtn, ?_⟩
    have hp := hseatsperm.symm
    rw [hcont, hseatslen] at hp
    exact hp
  · rw [if_neg hcont]
    constructor
    · show (if hand.metadata.button_seat ≠ 0
          then seatMapGet sts hand.metadata.button_seat
          else hand.metadata.button_seat) = 1
      rw [hbtn, if_pos (by omega)]
      rw [seatMapGet, if_pos honemem,
        sorted_indexOf_one hseatssort honemem hseatsge]
      norm_num
    · have hperm2 : ((List.insertionSort (fun a b => a.seat ≤ b.seat)
          (hand.players.map
            (fun p => { p with seat := seatMapGet sts p.seat }))).map
          (fun p => p.seat)).Perm
          ((hand.players.map
            (fun p => { p with seat := seatMapGet sts p.seat })).map
          (fun p => p.seat)) :=
        (List.perm_insertionSort _ _).map _
      refine hperm2.trans ?_
      rw [List.map_map]
      show (hand.players.map (fun p => seatMapGet sts p.seat)).Perm _
      have hfact : hand.players.map (fun p => seatMapGet sts p.seat) =
          (hand.players.map (fun p => p.seat)).map (seatMapGet sts) := by
        rw [List.map_map]
        rfl
      rw [hfact]
      refine (hseatsperm.symm.map _).trans ?_
      have hmapcongr : sts.map (seatMapGet sts) =
          sts.map (fun x => (sts.indexOf x : ℤ) + 1) := by
        refine List.map_congr_left ?_
        intro x hx
        rw [seatMapGet, if_pos hx]
      rw [hmapcongr, sorted_indexOf_map hseatsnd, hseatslen]

/-- C9: after the canonicalization pass (button rotation, then seat
contiguization), the button seat is 1 and the players' seat numbers are
exactly the contiguous integers 1..k (k = number of participants), for every
hand whose players sit on distinct seats within 1..max_seats with the
button on an occupied seat. -/
theorem canonicalize_button_one_contiguous (heroUid : String)
    (hand : HandRecord)
    (hm : 0 < hand.metadata.max_seats)
    (hrange : ∀ p ∈ hand.players, 1 ≤ p.seat ∧ p.seat ≤ hand.metadata.max_seats)
    (hnd : (hand.players.map (fun p => p.seat)).Nodup)
    (hbtn : ∃ p ∈ hand.players, p.seat = hand.metadata.button_seat) :
    (contiguizeSeats (rotateToButtonOne heroUid hand)).metadata.button_seat = 1 ∧
    ((contiguizeSeats (rotateToButtonOne heroUid hand)).players.map
        (fun p => p.seat)).Perm
      (List.map (fun n : ℕ => (n : ℤ) + 1) (List.range hand.players.length)) := by
  obtain ⟨hr1, hr2, hr3, hr4, hr5⟩ := rotate_props heroUid hand hm hrange hnd hbtn
  obtain ⟨hc1, hc2⟩ := contiguize_props (rotateToButtonOne heroUid hand)
    (fun p hp => (hr1 p hp).1) hr2 hr4 hr3
  rw [hr5] at hc2
  exact ⟨hc1, hc2⟩

/-- A concrete 3-player hand with the button (and hero) on seat 3 and seats
{1, 3, 5}; used as witness input for the canonicalization theorems. -/
def sampleHand : HandRecord :=
  { metadata :=
      { game_type := "Hold'em", limit_type := "No Limit", max_seats := 6,
        hero_seat := 3, hand_ended_on_street := some "preflop",
        button_seat := 3, sb := 2 / 100, bb := 5 / 100, ante := 0,
        rng_seed_commitment := none }
    players :=
      [⟨"p_a", 1, 5, none, false⟩,
       ⟨"p_hero", 3, 10, some ["As", "Kd"], true⟩,
       ⟨"p_b", 5, 7, none, false⟩]
    streets := []
    actions := [⟨1, "preflop", 5, "small_blind", 2 / 100, none, none,
      4 / 10, 0, 2 / 100⟩]
    outcome :=
      { winners := ["p_hero"], payouts := [("p_hero", 1 / 10)],
        total_pot := 1 / 10, rake := 0, result_reason := "fold",
        showdown := false }
    label := "bot" }

/-- Witness for C9 at `sampleHand`. -/
theorem canonicalize_button_one_contiguous_witness :
    (contiguizeSeats (rotateToButtonOne "p_hero" sampleHand)).metadata.button_seat = 1 ∧
    ((contiguizeSeats (rotateToButtonOne "p_hero" sampleHand)).players.map
        (fun p => p.seat)).Perm
      (List.map (fun n : ℕ => (n : ℤ) + 1) (List.range sampleHand.players.length)) :=
  canonicalize_button_one_contiguous "p_hero" sampleHand (by decide)
    (by decide) (by decide) (by decide)

theorem hero_filter_shape {heroUid : String} {hand : HandRecord}
    (hhero : (hand.players.filter (fun p => p.player_uid == heroUid)).map
      (fun p => p.seat) = [hand.metadata.hero_seat]) :
    ∃ ph, hand.players.filter (fun p => p.player_uid == heroUid) = [ph] ∧
      ph.seat = hand.metadata.hero_seat ∧ ph ∈ hand.players := by
  cases hf : hand.players.filter (fun p => p.player_uid == heroUid) with
  | nil => rw [hf] at hhero; simp at hhero
  | cons ph rest =>
      rw [hf] at hhero
      simp only [List.map_cons, List.cons.injEq] at hhero
      obtain ⟨hseat, hrest⟩ := hhero
      have hrestnil : rest = [] := by
        cases rest with
        | nil => rfl
        | cons x xs => simp at hrest
      subst hrestnil
      refine ⟨ph, rfl, hseat, ?_⟩
      have : ph ∈ hand.players.filter (fun p => p.player_uid == heroUid) := by
        rw [hf]; exact List.mem_singleton_self ph
      exact List.mem_of_mem_filter this

theorem rotate_frame (heroUid : String) (hand : HandRecord)
    (hm : 0 < hand.metadata.max_seats)
    (hge : ∀ p ∈ hand.players, 1 ≤ p.seat)
    (hbge : 1 ≤ hand.metadata.button_seat)
    (hhero : (hand.players.filter (fun p => p.player_uid == heroUid)).map
      (fun p => p.seat) = [hand.metadata.hero_seat]) :
    ∃ r : ℤ → ℤ,
      (rotateToButtonOne heroUid hand).players.Perm
        (hand.players.map (fun p => { p with seat := r p.seat })) ∧
      (rotateToButtonOne heroUid hand).actions =
        hand.actions.map (fun a => { a with actor_seat := r a.actor_seat }) ∧
      (rotateToButtonOne heroUid hand).metadata =
        { hand.metadata with
          hero_seat := r hand.metadata.hero_seat,
          button_seat := r hand.metadata.button_seat } ∧
      (rotateToButtonOne heroUid hand).streets = hand.streets ∧
      (rotateToButtonOne heroUid hand).outcome = hand.outcome ∧
      (rotateToButtonOne heroUid hand).label = hand.label ∧
      1 ≤ r hand.metadata.hero_seat ∧ 1 ≤ r hand.metadata.button_seat := by
  obtain ⟨ph, hfilter, hphseat, hphmem⟩ := hero_filter_shape hhero
  by_cases hsh : (hand.metadata.button_seat - 1) % hand.metadata.max_seats = 0
  · refine ⟨id, ?_, ?_, ?_, ?_, ?_, ?_, ?_, ?_⟩
    · rw [rotateToButtonOne]
      simp only [if_pos hsh]
      have hmapid : hand.players.map (fun p => { p with seat := id p.seat }) =
          hand.players := by
        have : (fun p : PlayerRec => { p with seat := id p.seat }) =
            fun p => p := by
          funext p; rfl
        rw [this, List.map_id']
      rw [hmapid]
    · rw [rotateToButtonOne]
      simp only [if_pos hsh]
      have : (fun a : ActionEvent => { a with actor_seat := id a.actor_seat }) =
          fun a => a := by
        funext a; rfl
      rw [this, List.map_id']
    · rw [rotateToButtonOne]
      simp only [if_pos hsh]
      rfl
    · rw [rotateToButtonOne]; simp only [if_pos hsh]
    · rw [rotateToButtonOne]; simp only [if_pos hsh]
    · rw [rotateToButtonOne]; simp only [if_pos hsh]
    · show 1 ≤ hand.metadata.hero_seat
      rw [← hphseat]
      exact hge ph hphmem
    · exact hbge
  · refine ⟨rotateSeat ((hand.metadata.button_seat - 1) %
        hand.metadata.max_seats) hand.metadata.max_seats,
      ?_, ?_, ?_, ?_, ?_, ?_, ?_, ?_⟩
    · rw [rotateToButtonOne]
      simp only [if_neg hsh]
      exact List.perm_insertionSort _ _
    · rw [rotateToButtonOne]
      simp only [if_neg hsh]
    · rw [rotateToButtonOne]
      simp only [if_neg hsh, hfilter]
      have hlast : ([ph].getLast?) = some ph := rfl
      rw [hlast]
      simp only [Option.map_some']
      rw [hphseat,
        (rotateSeat_button hand.metadata.max_seats hand.metadata.button_seat hm)]
    · rw [rotateToButtonOne]; simp only [if_neg hsh]
    · rw [rotateToButtonOne]; simp only [if_neg hsh]
    · rw [rotateToButtonOne]; simp only [if_neg hsh]
    · exact (rotateSeat_range _ _ _ hm).1
    · exact (rotateSeat_range _ _ _ hm).1

theorem contiguize_frame (hand : HandRecord)
    (hh : hand.metadata.hero_seat ≠ 0) (hb : hand.metadata.button_seat ≠ 0) :
    ∃ c : ℤ → ℤ,
      (contiguizeSeats hand).players.Perm
        (hand.players.map (fun p => { p with seat := c p.seat })) ∧
      (contiguizeSeats hand).actions =
        hand.actions.map (fun a => { a with actor_seat := c a.actor_seat }) ∧
      (contiguizeSeats hand).metadata =
        { hand.metadata with
          hero_seat := c hand.metadata.hero_seat,
          button_seat := c hand.metadata.button_seat } ∧
      (contiguizeSeats hand).streets = hand.streets ∧
      (contiguizeSeats hand).outcome = hand.outcome ∧
      (contiguizeSeats hand).label = hand.label := by
  rw [contiguizeSeats]
  set sts := List.insertionSort (fun a b => a ≤ b)
    (hand.players.map (fun p => p.seat)).dedup with hstsdef
  by_cases hcont : sts = List.map (fun n : ℕ => (n : ℤ) + 1) (List.range sts.length)
  · rw [if_pos hcont]
    refine ⟨id, ?_, ?_, ?_, rfl, rfl, rfl⟩
    · have : (fun p : PlayerRec => { p with seat := id p.seat }) = fun p => p := by
        funext p; rfl
      rw [this, List.map_id']
    · have : (fun a : ActionEvent => { a with actor_seat := id a.actor_seat }) =
          fun a => a := by
        funext a; rfl
      rw [this, List.map_id']
    · rfl
  · rw [if_neg hcont]
    refine ⟨seatMapGet sts, ?_, rfl, ?_, rfl, rfl, rfl⟩
    · exact List.perm_insertionSort _ _
    · show ({ hand.metadata with
        hero_seat := if hand.metadata.hero_seat ≠ 0
          then seatMapGet sts hand.metadata.hero_seat
          else hand.metadata.hero_seat
        button_seat := if hand.metadata.button_seat ≠ 0
          then seatMapGet sts hand.metadata.button_seat
          else hand.metadata.button_seat } : HandMeta) = _
      rw [if_pos hh, if_pos hb]

/-- C10: the canonicalization pass only renumbers seats — one function π is
applied to every player seat, every action's actor seat, and the metadata
hero and button seats; every other field of the hand record (uids, stacks,
hole cards, showed_hand flags, action types/amounts/pots, streets, outcome,
label) is unchanged, and each player record keeps its uid together with its
other data (players are only re-sorted).  Holds for every hand whose players
have seats ≥ 1 within max_seats, a button seat ≥ 1, and exactly one
hero-uid player seated at metadata.hero_seat. -/
theorem canonicalize_frame (heroUid : String) (hand : HandRecord)
    (hm : 0 < hand.metadata.max_seats)
    (hrange : ∀ p ∈ hand.players, 1 ≤ p.seat ∧ p.seat ≤ hand.metadata.max_seats)
    (hbge : 1 ≤ hand.metadata.button_seat)
    (hhero : (hand.players.filter (fun p => p.player_uid == heroUid)).map
      (fun p => p.seat) = [hand.metadata.hero_seat]) :
    ∃ π : ℤ → ℤ,
      (contiguizeSeats (rotateToButtonOne heroUid hand)).players.Perm
        (hand.players.map (fun p => { p with seat := π p.seat })) ∧
      (contiguizeSeats (rotateToButtonOne heroUid hand)).actions =
        hand.actions.map (fun a => { a with actor_seat := π a.actor_seat }) ∧
      (contiguizeSeats (rotateToButtonOne heroUid hand)).metadata =
        { hand.metadata with
          hero_seat := π hand.metadata.hero_seat,
          button_seat := π hand.metadata.button_seat } ∧
      (contiguizeSeats (rotateToButtonOne heroUid hand)).streets = hand.streets ∧
      (contiguizeSeats (rotateToButtonOne heroUid hand)).outcome = hand.outcome ∧
      (contiguizeSeats (rotateToButtonOne heroUid hand)).label = hand.label := by
  obtain ⟨r, hrp, hra, hrm, hrs, hro, hrl, hrh1, hrb1⟩ :=
    rotate_frame heroUid hand hm (fun p hp => (hrange p hp).1) hbge hhero
  have hh : (rotateToButtonOne heroUid hand).metadata.hero_seat ≠ 0 := by
    rw [hrm]
    show r hand.metadata.hero_seat ≠ 0
    omega
  have hb : (rotateToButtonOne heroUid hand).metadata.button_seat ≠ 0 := by
    rw [hrm]
    show r hand.metadata.button_seat ≠ 0
    omega
  obtain ⟨c, hcp, hca, hcm, hcs, hco, hcl⟩ :=
    contiguize_frame (rotateToButtonOne heroUid hand) hh hb
  refine ⟨fun s => c (r s), ?_, ?_, ?_, hcs.trans hrs, hco.trans hro,
    hcl.trans hrl⟩
  · refine hcp.trans ?_
    have hstep := hrp.map (fun p : PlayerRec => { p with seat := c p.seat })
    refine hstep.trans ?_
    rw [List.map_map]
    rfl
  · rw [hca, hra, List.map_map]
    rfl
  · rw [hcm, hrm]

/-- Witness for C10 at `sampleHand`. -/
theorem canonicalize_frame_witness :
    ∃ π : ℤ → ℤ,
      (contiguizeSeats (rotateToButtonOne "p_hero" sampleHand)).players.Perm
        (sampleHand.players.map (fun p => { p with seat := π p.seat })) ∧
      (contiguizeSeats (rotateToButtonOne "p_hero" sampleHand)).actions =
        sampleHand.actions.map (fun a => { a with actor_seat := π a.actor_seat }) ∧
      (contiguizeSeats (rotateToButtonOne "p_hero" sampleHand)).metadata =
        { sampleHand.metadata with
          hero_seat := π sampleHand.metadata.hero_seat,
          button_seat := π sampleHand.metadata.button_seat } ∧
      (contiguizeSeats (rotateToButtonOne "p_hero" sampleHand)).streets =
        sampleHand.streets ∧
      (contiguizeSeats (rotateToButtonOne "p_hero" sampleHand)).outcome =
        sampleHand.outcome ∧
      (contiguizeSeats (rotateToButtonOne "p_hero" sampleHand)).label =
        sampleHand.label :=
  canonicalize_frame "p_hero" sampleHand (by decide) (by decide) (by decide)
    (by decide)

/-! ## C4/C7: the decision agent

From `poker44/hands_generator/bot_hands/sandbox_poker_bot.py`.  The bot's
seeded `random.Random` stream is modelled by two oracle streams (`rnd` for
`random()`, `rndInt` for `randint`) consumed at increasing positions; the
starting-strength table loaded from `hole_strengths.csv` at construction is
a field of the bot.  Paths on which the Python code would raise (indexing a
hole-card string shorter than 2 characters, or a rank character outside
2-9/T/J/Q/K/A, inside `_rank_to_numeric`/`_hole_list_to_key`) are modelled
as `none`. -/

inductive Street
  | preflop
  | flop
  | turn
  | river
  deriving DecidableEq, Repr

structure LegalActions where
  can_fold : Bool
  can_check : Bool
  can_call : Bool
  call_amount : ℤ
  can_bet : Bool
  min_bet : ℤ
  max_bet : ℤ
  can_raise : Bool
  min_raise : ℤ
  max_raise : ℤ
  deriving DecidableEq, Repr

structure GameState where
  hand_id : String
  player_id : String
  street : Street
  position_index : ℤ
  num_players : ℤ
  stack : ℤ
  pot : ℤ
  to_call : ℤ
  big_blind : ℤ
  hand_strength : Option ℚ
  last_action_was_aggressive : Bool
  opponent_aggro_score : Option ℚ
  hole_cards : Option (List String)
  deriving DecidableEq, Repr

structure BotProfile where
  name : String
  tightness : ℚ
  aggression : ℚ
  bluff_freq : ℚ
  max_risk_fraction_of_stack : ℚ
  tilt_factor : ℚ
  bet_pot_fraction_small : ℚ
  bet_pot_fraction_medium : ℚ
  bet_pot_fraction_large : ℚ
  deriving DecidableEq, Repr

structure SessionStats where
  hands_seen : ℕ
  hands_played : ℕ
  aggressive_actions : ℕ
  deriving DecidableEq, Repr

structure SandboxPokerBot where
  profile : BotProfile
  rngPos : ℕ
  session_stats : SessionStats
  starting_strengths : List (String × ℚ)

/-- Python `int()` on a float value represented exactly: truncation toward
zero. -/
def pyInt (q : ℚ) : ℤ := Int.tdiv q.num (q.den : ℤ)

/-- `rng.randint(a, b)`: some integer in `[a, b]` drawn from the stream. -/
def randint (rndInt : ℕ → ℤ) (pos : ℕ) (a b : ℤ) : ℤ :=
  a + rndInt pos % (b - a + 1)

/-- `SandboxPokerBot._position_factor`. -/
def positionFactor (position_index num_players : ℤ) : ℚ :=
  if num_players ≤ 1 then 1 / 2
  else max 0 (min 1 ((position_index : ℚ) / ((num_players : ℚ) - 1)))

/-- `SandboxPokerBot._pot_odds`. -/
def potOdds (to_call pot : ℤ) : ℚ :=
  let denom := pot + max 0 to_call
  if denom ≤ 0 then 1
  else max 0 (min 1 ((to_call : ℚ) / (denom : ℚ)))

/-- `SandboxPokerBot._bucket_strength`. -/
def bucketStrength (hand_strength : Option ℚ) (pos_factor : ℚ) : String :=
  match hand_strength with
  | none => "medium"
  | some hs =>
      let adj := min 1 (max 0 (hs + 6 / 100 * (pos_factor - 1 / 2)))
      if adj < 38 / 100 then "weak"
      else if adj < 70 / 100 then "medium"
      else "strong"

/-- `SandboxPokerBot._risk_too_high`. -/
def riskTooHigh (profile : BotProfile) (amount stack : ℤ) : Bool :=
  if stack ≤ 0 then true
  else decide (profile.max_risk_fraction_of_stack <
    (amount : ℚ) / (stack : ℚ))

/-- `SandboxPokerBot._clamp`. -/
def clampInt (x lo hi : ℤ) : ℤ := max lo (min hi x)

/-- `SandboxPokerBot._size_open_raise` (one `randint` draw). -/
def sizeOpenRaise (rndInt : ℕ → ℤ) (pos : ℕ) (state : GameState)
    (legal : LegalActions) (strong : Bool) : ℤ × ℕ :=
  let bb := max 1 state.big_blind
  let base := pyInt ((if strong then 29 / 10 else 24 / 10) * (bb : ℚ))
  let base := base + randint rndInt pos 0 (pyInt (6 / 10 * (bb : ℚ)))
  (if legal.can_bet then clampInt base legal.min_bet legal.max_bet else base,
   pos + 1)

/-- `SandboxPokerBot._size_bet` (draws only when `can_bet`). -/
def sizeBet (rndInt : ℕ → ℤ) (pos : ℕ) (profile : BotProfile)
    (state : GameState) (legal : LegalActions) (small large : Bool) : ℤ × ℕ :=
  if !legal.can_bet then (0, pos)
  else
    let pot := max 1 state.pot
    let frac := if small then profile.bet_pot_fraction_small
      else if large then profile.bet_pot_fraction_large
      else profile.bet_pot_fraction_medium
    let amt := pyInt ((pot : ℚ) * frac)
    let amt := amt + randint rndInt pos 0 (max 1 (pyInt (8 / 100 * (pot : ℚ))))
    (clampInt amt legal.min_bet legal.max_bet, pos + 1)

/-- `SandboxPokerBot._size_raise` (draws only when `can_raise`). -/
def sizeRaise (rndInt : ℕ → ℤ) (pos : ℕ) (state : GameState)
    (legal : LegalActions) (large : Bool) : ℤ × ℕ :=
  if !legal.can_raise then (0, pos)
  else
    let pot := max 1 state.pot
    let extra := pyInt ((pot : ℚ) * (if large then 65 / 100 else 40 / 100))
    let amt := state.to_call + extra +
      randint rndInt pos 0 (max 1 (pyInt (6 / 100 * (pot : ℚ))))
    (clampInt amt legal.min_raise legal.max_raise, pos + 1)

/-- `SandboxPokerBot._rank_to_numeric`; `none` models the `ValueError` from
`'TJQKA'.index` on an unknown rank character. -/
def rankToNumeric (r : Char) : Option ℤ :=
  if r.isDigit then some ((r.toNat : ℤ) - 48)
  else
    let idx := "TJQKA".toList.indexOf r
    if idx < 5 then some ([10, 11, 12, 13, 14].getD idx 0) else none

/-- `SandboxPokerBot._hole_list_to_key`; outer `none` models a raised
exception (short card string or unknown rank), `some none` is Python's
returned `None`. -/
def holeListToKey (hole : List String) : Option (Option String) :=
  if hole.length ≠ 2 then some none
  else
    match hole with
    | [card1, card2] =>
        match card1.toList.get? 0, card1.toList.get? 1,
            card2.toList.get? 0, card2.toList.get? 1 with
        | some r1, some s1, some r2, some s2 =>
            (match rankToNumeric r1, rankToNumeric r2 with
             | some n1, some n2 =>
                 if n1 = n2 then some (some (String.mk [r1, r2, 'o']))
                 else
                   let sfx : Char := if s1 = s2 then 's' else 'o'
                   if n2 ≤ n1 then some (some (String.mk [r1, r2, sfx]))
                   else some (some (String.mk [r2, r1, sfx]))
             | _, _ => none)
        | _, _, _, _ => none
    | _ => some none

/-- `SandboxPokerBot._get_hand_strength_from_csv`: `key = str(...)` is
looked up in the table when truthy (non-empty). -/
def getHandStrengthFromCsv (table : List (String × ℚ)) (hole : List String) :
    Option (Option ℚ) :=
  match holeListToKey hole with
  | none => none
  | some k =>
      let key := match k with
        | none => "None"
        | some s => s
      some (if key.length ≠ 0 then table.lookup key else none)

/-- `state.to_call == 0 and legal.can_check` (`opening` in `_decide_preflop`). -/
def openingOpp (state : GameState) (legal : LegalActions) : Bool :=
  decide (state.to_call = 0) && legal.can_check

/-- `state.to_call > 0 and legal.can_call` (`facing_bet` in `_decide_postflop`). -/
def facingBet (state : GameState) (legal : LegalActions) : Bool :=
  decide (0 < state.to_call) && legal.can_call

/-- The trailing fallback chain of `_decide_preflop`. -/
def preflopFallback (state : GameState) (legal : LegalActions) (pos : ℕ) :
    BotDecision × ℕ :=
  if legal.can_check then (⟨.check, 0, "preflop_fallback_check"⟩, pos)
  else if legal.can_call then
    (⟨.call, state.to_call, "preflop_fallback_call"⟩, pos)
  else (⟨.fold, 0, "preflop_fallback_fold"⟩, pos)

/-- `_decide_preflop` from the strong bucket's `if legal.can_call` on. -/
def preflopStrongTail (state : GameState) (legal : LegalActions) (pos : ℕ) :
    BotDecision × ℕ :=
  if legal.can_call then (⟨.call, state.to_call, "strong_call"⟩, pos)
  else preflopFallback state legal pos

/-- `_decide_preflop` after hand strength has been resolved to a number
(`hs`) and the bucket possibly overridden to "medium". -/
def decidePreflopMain (profile : BotProfile) (rnd : ℕ → ℚ) (rndInt : ℕ → ℤ)
    (pos : ℕ) (state : GameState) (legal : LegalActions)
    (strength_bucket : String) (hs : ℚ) (pos_factor pot_odds : ℚ) :
    BotDecision × ℕ :=
  if strength_bucket = "weak" then
    if 0 < state.to_call ∧ legal.can_fold then
      let threat : ℚ := (state.to_call : ℚ) / ((max 1 state.big_blind : ℤ) : ℚ)
      if 4 < threat then (⟨.fold, 0, "weak_fold_big_raise"⟩, pos)
      else if pot_odds < 18 / 100 ∧ 6 / 10 < pos_factor then
        if 6 / 10 < rnd pos then
          ((if legal.can_call then ⟨.call, state.to_call, "weak_defend_good_odds"⟩
            else ⟨.fold, state.to_call, "weak_defend_good_odds"⟩), pos + 1)
        else (⟨.fold, 0, "weak_fold"⟩, pos + 1)
      else (⟨.fold, 0, "weak_fold"⟩, pos)
    else if openingOpp state legal ∧ legal.can_check then
      (⟨.check, 0, "weak_check_opening"⟩, pos)
    else preflopFallback state legal pos
  else if strength_bucket = "medium" then
    if openingOpp state legal then
      if legal.can_bet then
        if rnd pos < 25 / 100 + 55 / 100 * profile.aggression * pos_factor then
          let r := sizeOpenRaise rndInt (pos + 1) state legal false
          (⟨.bet, r.1, "medium_open_bet"⟩, r.2)
        else (⟨.check, 0, "medium_check_opening"⟩, pos + 1)
      else (⟨.check, 0, "medium_check_opening"⟩, pos)
    else if legal.can_call then
      if riskTooHigh profile state.to_call state.stack ∧ legal.can_fold then
        (⟨.fold, 0, "medium_fold_risk_cap"⟩, pos)
      else if pot_odds < 25 / 100 ∨ 1 / 2 < hs then
        (⟨.call, state.to_call, "medium_call"⟩, pos)
      else if legal.can_fold then (⟨.fold, 0, "medium_fold_bad_odds"⟩, pos)
      else preflopFallback state legal pos
    else preflopFallback state legal pos
  else if strength_bucket = "strong" then
    if openingOpp state legal then
      if legal.can_bet then
        let r := sizeOpenRaise rndInt pos state legal true
        (⟨.bet, r.1, "strong_open_bet"⟩, r.2)
      else (⟨.check, 0, "strong_check_fallback"⟩, pos)
    else if legal.can_raise then
      if rnd pos < 35 / 100 + 55 / 100 * profile.aggression then
        let r := sizeRaise rndInt (pos + 1) state legal true
        (⟨.raise, r.1, "strong_reraise"⟩, r.2)
      else preflopStrongTail state legal (pos + 1)
    else preflopStrongTail state legal pos
  else preflopFallback state legal pos

/-- `SandboxPokerBot._decide_preflop`. -/
def decidePreflop (profile : BotProfile) (rnd : ℕ → ℚ) (rndInt : ℕ → ℤ)
    (pos : ℕ) (state : GameState) (legal : LegalActions)
    (strength_bucket : String) (pos_factor pot_odds : ℚ) : BotDecision × ℕ :=
  match state.hand_strength with
  | some hs =>
      decidePreflopMain profile rnd rndInt pos state legal strength_bucket hs
        pos_factor pot_odds
  | none =>
      let pseudo := rnd pos * (65 / 100) + 35 / 100 * pos_factor
      if pseudo < profile.tightness - 1 / 10 * pos_factor ∧ legal.can_fold then
        (⟨.fold, 0, "preflop_pseudo_fold"⟩, pos + 1)
      else
        decidePreflopMain profile rnd rndInt (pos + 1) state legal "medium"
          pseudo pos_factor pot_odds

/-- The trailing fallback chain of `_decide_postflop`. -/
def postflopFallback (state : GameState) (legal : LegalActions) (pos : ℕ) :
    BotDecision × ℕ :=
  if legal.can_check then (⟨.check, 0, "postflop_fallback_check"⟩, pos)
  else if legal.can_call then
    (⟨.call, state.to_call, "postflop_fallback_call"⟩, pos)
  else (⟨.fold, 0, "postflop_fallback_fold"⟩, pos)

/-- `_decide_postflop`'s weak bucket after the bluff opportunity, then the
shared tail. -/
def postflopWeakTail (state : GameState) (legal : LegalActions) (hs : ℚ)
    (pot_odds : ℚ) (pos : ℕ) : BotDecision × ℕ :=
  if facingBet state legal then
    let threat : ℚ := (state.to_call : ℚ) / ((max 1 state.big_blind : ℤ) : ℚ)
    let adjusted := if 4 < threat then max 0 (hs - 17 / 100) else hs
    if pot_odds < 14 / 100 ∧ pot_odds * (8 / 10) ≤ adjusted then
      (⟨.call, state.to_call, "weak_peel_good_odds"⟩, pos)
    else if legal.can_fold then (⟨.fold, 0, "weak_fold_postflop"⟩, pos)
    else if legal.can_check then (⟨.check, 0, "weak_check"⟩, pos)
    else postflopFallback state legal pos
  else if legal.can_check then (⟨.check, 0, "weak_check"⟩, pos)
  else postflopFallback state legal pos

/-- `_decide_postflop`'s medium bucket from the value-bet line on. -/
def postflopMediumTail (profile : BotProfile) (rnd : ℕ → ℚ) (rndInt : ℕ → ℤ)
    (state : GameState) (legal : LegalActions) (pos : ℕ) : BotDecision × ℕ :=
  if legal.can_bet then
    if rnd pos < 25 / 100 + 35 / 100 * profile.aggression then
      let r := sizeBet rndInt (pos + 1) profile state legal false false
      (⟨.bet, r.1, "medium_value_bet"⟩, r.2)
    else if legal.can_check then (⟨.check, 0, "medium_check"⟩, pos + 1)
    else postflopFallback state legal (pos + 1)
  else if legal.can_check then (⟨.check, 0, "medium_check"⟩, pos)
  else postflopFallback state legal pos

/-- `_decide_postflop`'s strong bucket from the call-trap line on. -/
def postflopStrongTail (profile : BotProfile) (rndInt : ℕ → ℤ)
    (state : GameState) (legal : LegalActions) (hs : ℚ) (pos : ℕ) :
    BotDecision × ℕ :=
  if facingBet state legal ∧ legal.can_call then
    (⟨.call, state.to_call, "strong_call_trap"⟩, pos)
  else if ¬facingBet state legal ∧ legal.can_bet then
    let is_late := state.street = Street.turn ∨ state.street = Street.river
    let large : Bool := decide (is_late ∧ 75 / 100 < hs)
    let r := sizeBet rndInt pos profile state legal false large
    (⟨.bet, r.1, "strong_value_bet"⟩, r.2)
  else postflopFallback state legal pos

/-- `SandboxPokerBot._decide_postflop` after hand strength has been resolved
to a number and the bucket possibly recomputed. -/
def decidePostflopMain (profile : BotProfile) (rnd : ℕ → ℚ) (rndInt : ℕ → ℤ)
    (pos : ℕ) (state : GameState) (legal : LegalActions)
    (strength_bucket : String) (hs : ℚ) (pos_factor pot_odds : ℚ) :
    BotDecision × ℕ :=
  if strength_bucket = "weak" then
    if ¬facingBet state legal ∧ (legal.can_bet ∨ legal.can_raise) then
      if rnd pos < profile.bluff_freq * (6 / 10 + 6 / 10 * pos_factor) then
        let r := sizeBet rndInt (pos + 1) profile state legal true false
        ((if legal.can_bet then ⟨.bet, r.1, "weak_bluff"⟩
          else ⟨.raise, r.1, "weak_bluff"⟩), r.2)
      else postflopWeakTail state legal hs pot_odds (pos + 1)
    else postflopWeakTail state legal hs pot_odds pos
  else if strength_bucket = "medium" then
    if facingBet state legal then
      if riskTooHigh profile state.to_call state.stack ∧ legal.can_fold then
        (⟨.fold, 0, "medium_fold_risk_cap_postflop"⟩, pos)
      else if pot_odds ≤ hs then
        if legal.can_raise ∧ 55 / 100 < hs then
          if rnd pos <
              12 / 100 + 25 / 100 * profile.aggression * pos_factor then
            let r := sizeRaise rndInt (pos + 1) state legal false
            (⟨.raise, r.1, "medium_raise_semibluff"⟩, r.2)
          else (⟨.call, state.to_call, "medium_call_postflop"⟩, pos + 1)
        else (⟨.call, state.to_call, "medium_call_postflop"⟩, pos)
      else if legal.can_fold then (⟨.fold, 0, "medium_fold_bad_odds"⟩, pos)
      else postflopMediumTail profile rnd rndInt state legal pos
    else postflopMediumTail profile rnd rndInt state legal pos
  else if strength_bucket = "strong" then
    if facingBet state legal ∧ legal.can_raise then
      if rnd pos < 35 / 100 + 45 / 100 * profile.aggression then
        let r := sizeRaise rndInt (pos + 1) state legal true
        (⟨.raise, r.1, "strong_raise_value"⟩, r.2)
      else postflopStrongTail profile rndInt state legal hs (pos + 1)
    else postflopStrongTail profile rndInt state legal hs pos
  else postflopFallback state legal pos

/-- `SandboxPokerBot._decide_postflop`. -/
def decidePostflop (profile : BotProfile) (rnd : ℕ → ℚ) (rndInt : ℕ → ℤ)
    (pos : ℕ) (state : GameState) (legal : LegalActions)
    (strength_bucket : String) (pos_factor pot_odds : ℚ) : BotDecision × ℕ :=
  match state.hand_strength with
  | some hs =>
      decidePostflopMain profile rnd rndInt pos state legal strength_bucket hs
        pos_factor pot_odds
  | none =>
      let hs := 25 / 100 + 50 / 100 * rnd pos
      decidePostflopMain profile rnd rndInt (pos + 1) state legal
        (bucketStrength (some hs) pos_factor) hs pos_factor pot_odds

/-- `SandboxPokerBot.act`.  `none` models a raised exception (malformed hole
cards inside the CSV lookup); on success returns the decision, the updated
bot (session stats and rng position) and the possibly-updated game state
(`state.hand_strength` is overwritten on a CSV hit). -/
def act (rnd : ℕ → ℚ) (rndInt : ℕ → ℤ) (bot : SandboxPokerBot)
    (state : GameState) (legal : LegalActions) :
    Option (BotDecision × SandboxPokerBot × GameState) :=
  let stats1 : SessionStats :=
    { bot.session_stats with hands_seen := bot.session_stats.hands_seen + 1 }
  let stateUpd : Option GameState :=
    match state.hole_cards with
    | none => some state
    | some hole =>
        if hole.isEmpty then some state
        else
          match getHandStrengthFromCsv bot.starting_strengths hole with
          | none => none
          | some none => some state
          | some (some q) => some { state with hand_strength := some q }
  match stateUpd with
  | none => none
  | some st1 =>
      let pos_factor := positionFactor st1.position_index st1.num_players
      let pot_odds := potOdds st1.to_call st1.pot
      let strength_bucket := bucketStrength st1.hand_strength pos_factor
      let r := if st1.street = Street.preflop then
          decidePreflop bot.profile rnd rndInt bot.rngPos st1 legal
            strength_bucket pos_factor pot_odds
        else
          decidePostflop bot.profile rnd rndInt bot.rngPos st1 legal
            strength_bucket pos_factor pot_odds
      let stats2 : SessionStats :=
        if r.1.action = ActionType.bet ∨ r.1.action = ActionType.raise then
          { stats1 with aggressive_actions := stats1.aggressive_actions + 1 }
        else stats1
      some (r.1, { bot with session_stats := stats2, rngPos := r.2 }, st1)

/-- Whether an action is allowed by the corresponding capability flag of the
legal-action set. -/
def capLegal (legal : LegalActions) : ActionType → Bool
  | .fold => legal.can_fold
  | .check => legal.can_check
  | .call => legal.can_call
  | .bet => legal.can_bet
  | .raise => legal.can_raise

set_option maxHeartbeats 1600000 in
lemma decidePreflopMain_props (profile : BotProfile) (rnd : ℕ → ℚ)
    (rndInt : ℕ → ℤ) (pos : ℕ) (state : GameState) (legal : LegalActions)
    (bucket : String) (hs pf po : ℚ) :
    (legal.can_bet = false →
      (decidePreflopMain profile rnd rndInt pos state legal bucket hs
        pf po).1.action ≠ ActionType.bet) ∧
    ((legal.can_fold = true ∨ legal.can_check = true ∨ legal.can_call = true) →
      capLegal legal (decidePreflopMain profile rnd rndInt pos state legal
        bucket hs pf po).1.action = true) ∧
    ((decidePreflopMain profile rnd rndInt pos state legal bucket hs
        pf po).1.reason = "preflop_fallback_check" →
      legal.can_check = true) ∧
    ((decidePreflopMain profile rnd rndInt pos state legal bucket hs
        pf po).1.reason = "preflop_fallback_call" →
      legal.can_check = false ∧ legal.can_call = true) ∧
    ((decidePreflopMain profile rnd rndInt pos state legal bucket hs
        pf po).1.reason = "preflop_fallback_fold" →
      legal.can_check = false ∧ legal.can_call = false) := by
  unfold decidePreflopMain preflopStrongTail preflopFallback
  dsimp only
  repeat' split
  all_goals simp_all [capLegal, openingOpp]

lemma decidePreflop_props (profile : BotProfile) (rnd : ℕ → ℚ)
    (rndInt : ℕ → ℤ) (pos : ℕ) (state : GameState) (legal : LegalActions)
    (bucket : String) (pf po : ℚ) :
    (legal.can_bet = false →
      (decidePreflop profile rnd rndInt pos state legal bucket
        pf po).1.action ≠ ActionType.bet) ∧
    ((legal.can_fold = true ∨ legal.can_check = true ∨ legal.can_call = true) →
      capLegal legal (decidePreflop profile rnd rndInt pos state legal bucket
        pf po).1.action = true) ∧
    ((decidePreflop profile rnd rndInt pos state legal bucket
        pf po).1.reason = "preflop_fallback_check" →
      legal.can_check = true) ∧
    ((decidePreflop profile rnd rndInt pos state legal bucket
        pf po).1.reason = "preflop_fallback_call" →
      legal.can_check = false ∧ legal.can_call = true) ∧
    ((decidePreflop profile rnd rndInt pos state legal bucket
        pf po).1.reason = "preflop_fallback_fold" →
      legal.can_check = false ∧ legal.can_call = false) := by
  unfold decidePreflop
  cases hhs : state.hand_strength with
  | some hs =>
      dsimp only
      exact decidePreflopMain_props profile rnd rndInt pos state legal bucket
        hs pf po
  | none =>
      dsimp only
      split
      · next h => simp [capLegal, h.2]
      · exact decidePreflopMain_props profile rnd rndInt (pos + 1) state
          legal "medium" (rnd pos * (65 / 100) + 35 / 100 * pf) pf po

lemma postflopFallback_props (state : GameState) (legal : LegalActions)
    (pos : ℕ) :
    (legal.can_bet = false →
      (postflopFallback state legal pos).1.action ≠ ActionType.bet) ∧
    ((legal.can_fold = true ∨ legal.can_check = true ∨ legal.can_call = true) →
      capLegal legal (postflopFallback state legal pos).1.action = true) ∧
    ((postflopFallback state legal pos).1.reason = "postflop_fallback_check" →
      legal.can_check = true) ∧
    ((postflopFallback state legal pos).1.reason = "postflop_fallback_call" →
      legal.can_check = false ∧ legal.can_call = true) ∧
    ((postflopFallback state legal pos).1.reason = "postflop_fallback_fold" →
      legal.can_check = false ∧ legal.can_call = false) := by
  unfold postflopFallback
  repeat' split
  all_goals simp_all [capLegal]

lemma postflopWeakTail_props (state : GameState) (legal : LegalActions)
    (hs po : ℚ) (pos : ℕ) :
    (legal.can_bet = false →
      (postflopWeakTail state legal hs po pos).1.action ≠ ActionType.bet) ∧
    ((legal.can_fold = true ∨ legal.can_check = true ∨ legal.can_call = true) →
      capLegal legal (postflopWeakTail state legal hs po pos).1.action =
        true) ∧
    ((postflopWeakTail state legal hs po pos).1.reason =
        "postflop_fallback_check" → legal.can_check = true) ∧
    ((postflopWeakTail state legal hs po pos).1.reason =
        "postflop_fallback_call" →
      legal.can_check = false ∧ legal.can_call = true) ∧
    ((postflopWeakTail state legal hs po pos).1.reason =
        "postflop_fallback_fold" →
      legal.can_check = false ∧ legal.can_call = false) := by
  unfold postflopWeakTail
  dsimp only
  repeat' split
  all_goals first
    | exact postflopFallback_props state legal pos
    | simp_all [capLegal, facingBet]

lemma postflopMediumTail_props (profile : BotProfile) (rnd : ℕ → ℚ)
    (rndInt : ℕ → ℤ) (state : GameState) (legal : LegalActions) (pos : ℕ) :
    (legal.can_bet = false →
      (postflopMediumTail profile rnd rndInt state legal
        pos).1.action ≠ ActionType.bet) ∧
    ((legal.can_fold = true ∨ legal.can_check = true ∨ legal.can_call = true) →
      capLegal legal (postflopMediumTail profile rnd rndInt state legal
        pos).1.action = true) ∧
    ((postflopMediumTail profile rnd rndInt state legal pos).1.reason =
        "postflop_fallback_check" → legal.can_check = true) ∧
    ((postflopMediumTail profile rnd rndInt state legal pos).1.reason =
        "postflop_fallback_call" →
      legal.can_check = false ∧ legal.can_call = true) ∧
    ((postflopMediumTail profile rnd rndInt state legal pos).1.reason =
        "postflop_fallback_fold" →
      legal.can_check = false ∧ legal.can_call = false) := by
  unfold postflopMediumTail
  dsimp only
  repeat' split
  all_goals first
    | exact postflopFallback_props state legal pos
    | exact postflopFallback_props state legal (pos + 1)
    | simp_all [capLegal]

lemma postflopStrongTail_props (profile : BotProfile) (rndInt : ℕ → ℤ)
    (state : GameState) (legal : LegalActions) (hs : ℚ) (pos : ℕ) :
    (legal.can_bet = false →
      (postflopStrongTail profile rndInt state legal hs
        pos).1.action ≠ ActionType.bet) ∧
    ((legal.can_fold = true ∨ legal.can_check = true ∨ legal.can_call = true) →
      capLegal legal (postflopStrongTail profile rndInt state legal hs
        pos).1.action = true) ∧
    ((postflopStrongTail profile rndInt state legal hs pos).1.reason =
        "postflop_fallback_check" → legal.can_check = true) ∧
    ((postflopStrongTail profile rndInt state legal hs pos).1.reason =
        "postflop_fallback_call" →
      legal.can_check = false ∧ legal.can_call = true) ∧
    ((postflopStrongTail profile rndInt state legal hs pos).1.reason =
        "postflop_fallback_fold" →
      legal.can_check = false ∧ legal.can_call = false) := by
  unfold postflopStrongTail
  dsimp only
  repeat' split
  all_goals first
    | exact postflopFallback_props state legal pos
    | simp_all [capLegal, facingBet]

set_option maxHeartbeats 800000 in
lemma decidePostflopMain_props (profile : BotProfile) (rnd : ℕ → ℚ)
    (rndInt : ℕ → ℤ) (pos : ℕ) (state : GameState) (legal : LegalActions)
    (bucket : String) (hs pf po : ℚ) :
    (legal.can_bet = false →
      (decidePostflopMain profile rnd rndInt pos state legal bucket hs
        pf po).1.action ≠ ActionType.bet) ∧
    ((legal.can_fold = true ∨ legal.can_check = true ∨ legal.can_call = true) →
      capLegal legal (decidePostflopMain profile rnd rndInt pos state legal
        bucket hs pf po).1.action = true) ∧
    ((decidePostflopMain profile rnd rndInt pos state legal bucket hs
        pf po).1.reason = "postflop_fallback_check" →
      legal.can_check = true) ∧
    ((decidePostflopMain profile rnd rndInt pos state legal bucket hs
        pf po).1.reason = "postflop_fallback_call" →
      legal.can_check = false ∧ legal.can_call = true) ∧
    ((decidePostflopMain profile rnd rndInt pos state legal bucket hs
        pf po).1.reason = "postflop_fallback_fold" →
      legal.can_check = false ∧ legal.can_call = false) := by
  unfold decidePostflopMain
  dsimp only
  repeat' split
  all_goals first
    | exact postflopWeakTail_props state legal hs po pos
    | exact postflopWeakTail_props state legal hs po (pos + 1)
    | exact postflopMediumTail_props profile rnd rndInt state legal pos
    | exact postflopStrongTail_props profile rndInt state legal hs pos
    | exact postflopStrongTail_props profile rndInt state legal hs (pos + 1)
    | exact postflopFallback_props state legal pos
    | simp_all [capLegal, facingBet]

lemma decidePostflop_props (profile : BotProfile) (rnd : ℕ → ℚ)
    (rndInt : ℕ → ℤ) (pos : ℕ) (state : GameState) (legal : LegalActions)
    (bucket : String) (pf po : ℚ) :
    (legal.can_bet = false →
      (decidePostflop profile rnd rndInt pos state legal bucket
        pf po).1.action ≠ ActionType.bet) ∧
    ((legal.can_fold = true ∨ legal.can_check = true ∨ legal.can_call = true) →
      capLegal legal (decidePostflop profile rnd rndInt pos state legal bucket
        pf po).1.action = true) ∧
    ((decidePostflop profile rnd rndInt pos state legal bucket
        pf po).1.reason = "postflop_fallback_check" →
      legal.can_check = true) ∧
    ((decidePostflop profile rnd rndInt pos state legal bucket
        pf po).1.reason = "postflop_fallback_call" →
      legal.can_check = false ∧ legal.can_call = true) ∧
    ((decidePostflop profile rnd rndInt pos state legal bucket
        pf po).1.reason = "postflop_fallback_fold" →
      legal.can_check = false ∧ legal.can_call = false) := by
  unfold decidePostflop
  cases hhs : state.hand_strength with
  | some hs =>
      dsimp only
      exact decidePostflopMain_props profile rnd rndInt pos state legal bucket
        hs pf po
  | none =>
      dsimp only
      exact decidePostflopMain_props profile rnd rndInt (pos + 1) state legal
        (bucketStrength (some (25 / 100 + 50 / 100 * rnd pos)) pf)
        (25 / 100 + 50 / 100 * rnd pos) pf po

/-- C7: The decision agent (a) always returns (never raises) whenever no
hole cards are supplied (with hole cards, malformed card strings can raise
inside the CSV lookup); (b) with `can_bet = false` it never returns a bet;
(c) under the spec's own escape hatch — some of fold/check/call available —
the returned action's capability flag is set; and (d) the fallback chain
fires check, else call, else fold, in that order (witnessed by the recorded
fallback reasons).  Legality can still fail outside the escape hatch: see
the counterexample of a fold returned against a raise-only legal set. -/
theorem act_legal_and_fallback :
    (∀ (rnd : ℕ → ℚ) (rndInt : ℕ → ℤ) (bot : SandboxPokerBot)
      (state : GameState) (legal : LegalActions),
      state.hole_cards = none →
      ∃ out, act rnd rndInt bot state legal = some out) ∧
    (∀ (rnd : ℕ → ℚ) (rndInt : ℕ → ℤ) (bot : SandboxPokerBot)
      (state : GameState) (legal : LegalActions) (d : BotDecision)
      (b2 : SandboxPokerBot) (st1 : GameState),
      act rnd rndInt bot state legal = some (d, b2, st1) →
      (legal.can_bet = false → d.action ≠ ActionType.bet) ∧
      ((legal.can_fold = true ∨ legal.can_check = true ∨
          legal.can_call = true) → capLegal legal d.action = true) ∧
      (st1.street = Street.preflop →
        (d.reason = "preflop_fallback_check" → legal.can_check = true) ∧
        (d.reason = "preflop_fallback_call" →
          legal.can_check = false ∧ legal.can_call = true) ∧
        (d.reason = "preflop_fallback_fold" →
          legal.can_check = false ∧ legal.can_call = false)) ∧
      (st1.street ≠ Street.preflop →
        (d.reason = "postflop_fallback_check" → legal.can_check = true) ∧
        (d.reason = "postflop_fallback_call" →
          legal.can_check = false ∧ legal.can_call = true) ∧
        (d.reason = "postflop_fallback_fold" →
          legal.can_check = false ∧ legal.can_call = false))) := by
  constructor
  · intro rnd rndInt bot state legal h
    unfold act
    dsimp only
    rw [h]
    exact ⟨_, rfl⟩
  · intro rnd rndInt bot state legal d b2 st1 hact
    unfold act at hact
    dsimp only at hact
    split at hact
    · exact absurd hact (by simp)
    · next st1' hsu =>
        simp only [Option.some.injEq, Prod.mk.injEq] at hact
        obtain ⟨hd, hb2, hst⟩ := hact
        subst hst
        subst hd
        split
        · next hstreet =>
            obtain ⟨h1, h2, h3, h4, h5⟩ := decidePreflop_props bot.profile rnd
              rndInt bot.rngPos st1' legal
              (bucketStrength st1'.hand_strength
                (positionFactor st1'.position_index st1'.num_players))
              (positionFactor st1'.position_index st1'.num_players)
              (potOdds st1'.to_call st1'.pot)
            exact ⟨h1, h2, fun _ => ⟨h3, h4, h5⟩,
              fun hne => absurd hstreet hne⟩
        · next hstreet =>
            obtain ⟨h1, h2, h3, h4, h5⟩ := decidePostflop_props bot.profile rnd
              rndInt bot.rngPos st1' legal
              (bucketStrength st1'.hand_strength
                (positionFactor st1'.position_index st1'.num_players))
              (positionFactor st1'.position_index st1'.num_players)
              (potOdds st1'.to_call st1'.pot)
            exact ⟨h1, h2, fun hpre => absurd hpre hstreet,
              fun _ => ⟨h3, h4, h5⟩⟩

def wRnd : ℕ → ℚ := fun _ => 0

def wRndInt : ℕ → ℤ := fun _ => 0

def wProfile : BotProfile :=
  ⟨"tag", 1 / 2, 1 / 2, 1 / 20, 3 / 4, 1, 1 / 3, 1 / 2, 3 / 4⟩

def wBot : SandboxPokerBot := ⟨wProfile, 0, ⟨0, 0, 0⟩, []⟩

def wState : GameState :=
  ⟨"h1", "p1", Street.preflop, 0, 2, 100, 3, 0, 2, some (1 / 2), false, none,
    none⟩

/-- `can_check` only. -/
def wLegal : LegalActions :=
  ⟨false, true, false, 0, false, 0, 0, false, 0, 0⟩

def wBotAfter : SandboxPokerBot := ⟨wProfile, 0, ⟨1, 0, 0⟩, []⟩

lemma act_wState_eval :
    act wRnd wRndInt wBot wState wLegal =
      some (⟨ActionType.check, 0, "medium_check_opening"⟩, wBotAfter,
        wState) := by
  norm_num [act, decidePreflop, decidePreflopMain, preflopFallback,
    openingOpp, bucketStrength, positionFactor, potOdds, riskTooHigh, wBot,
    wState, wLegal, wProfile, wBotAfter, wRnd, wRndInt]
  decide

/-- Witness for C7: applies both halves at a concrete input — a bot with no
hole cards always gets a decision, and the checked decision at `wState` is
capability-legal. -/
theorem act_legal_and_fallback_witness :
    (∃ out, act wRnd wRndInt wBot wState wLegal = some out) ∧
    capLegal wLegal ActionType.check = true := by
  constructor
  · exact act_legal_and_fallback.1 wRnd wRndInt wBot wState wLegal rfl
  · exact (act_legal_and_fallback.2 wRnd wRndInt wBot wState wLegal
      ⟨ActionType.check, 0, "medium_check_opening"⟩ wBotAfter wState
      act_wState_eval).2.1 (Or.inr (Or.inl rfl))

/-- A raise-only legal set: everything disabled except raising. -/
def cxLegal : LegalActions :=
  ⟨false, false, false, 0, false, 0, 0, true, 2, 100⟩

def cxState : GameState :=
  ⟨"h2", "p2", Street.flop, 0, 2, 100, 10, 0, 1, some (1 / 10), false, none,
    none⟩

/-- Counterexample for C7: against a non-empty legal set that only allows
raising, the weak-bucket postflop flow reaches the final fallback and
returns a fold even though `can_fold` is false — the returned action is not
legal per the supplied `LegalActions`. -/
theorem act_illegal_fold_cex :
    ∃ d b2 st1,
      act (fun _ => 1) wRndInt wBot cxState cxLegal = some (d, b2, st1) ∧
      d.action = ActionType.fold ∧ cxLegal.can_fold = false ∧
      cxLegal.can_raise = true := by
  refine ⟨⟨ActionType.fold, 0, "postflop_fallback_fold"⟩,
    ⟨wProfile, 1, ⟨1, 0, 0⟩, []⟩, cxState, ?_, rfl, rfl, rfl⟩
  norm_num [act, decidePostflop, decidePostflopMain, postflopWeakTail,
    postflopFallback, facingBet, bucketStrength, positionFactor, potOdds,
    wBot, wProfile, cxState, cxLegal, wRndInt]
  decide

/-- C4: `act` is almost side-effect free — the bot's only mutated fields
are its session statistics (hands_seen always bumps by one) and its rng
stream position, and the legal set is untouched; but the GameState snapshot
is NOT always unchanged: the only field `act` may overwrite is
`state.hand_strength` (on a CSV strength hit), and the counterexample shows
it really is overwritten. -/
theorem act_frame :
    ∀ (rnd : ℕ → ℚ) (rndInt : ℕ → ℤ) (bot : SandboxPokerBot)
      (state : GameState) (legal : LegalActions) (d : BotDecision)
      (b2 : SandboxPokerBot) (st1 : GameState),
      act rnd rndInt bot state legal = some (d, b2, st1) →
      st1 = { state with hand_strength := st1.hand_strength } ∧
      b2 = { bot with session_stats := b2.session_stats, rngPos := b2.rngPos } ∧
      b2.profile = bot.profile ∧
      b2.starting_strengths = bot.starting_strengths ∧
      b2.session_stats.hands_seen = bot.session_stats.hands_seen + 1 := by
  intro rnd rndInt bot state legal d b2 st1 hact
  unfold act at hact
  dsimp only at hact
  split at hact
  · exact absurd hact (by simp)
  · next st1' hsu =>
      simp only [Option.some.injEq, Prod.mk.injEq] at hact
      obtain ⟨hd, hb2, hst⟩ := hact
      subst hst
      refine ⟨?_, ?_, ?_, ?_, ?_⟩
      · repeat' split at hsu
        all_goals simp_all
        all_goals (rw [← hsu])
      · rw [← hb2]
      · rw [← hb2]
      · rw [← hb2]
      · rw [← hb2]
        dsimp only
        repeat' split
        all_goals rfl

/-- Witness for C4 at the concrete `wState` input. -/
theorem act_frame_witness :
    act wRnd wRndInt wBot wState wLegal =
      some (⟨ActionType.check, 0, "medium_check_opening"⟩, wBotAfter,
        wState) ∧
    wState = { wState with hand_strength := wState.hand_strength } ∧
    wBotAfter.profile = wBot.profile ∧
    wBotAfter.session_stats.hands_seen = wBot.session_stats.hands_seen + 1 := by
  have h := act_frame wRnd wRndInt wBot wState wLegal
    ⟨ActionType.check, 0, "medium_check_opening"⟩ wBotAfter wState
    act_wState_eval
  exact ⟨act_wState_eval, h.1, h.2.2.1, h.2.2.2.2⟩

def mBot : SandboxPokerBot := ⟨wProfile, 0, ⟨0, 0, 0⟩, [("AAo", 17 / 20)]⟩

def mState : GameState :=
  ⟨"h3", "p3", Street.preflop, 1, 2, 100, 3, 0, 2, none, false, none,
    some ["As", "Ah"]⟩

set_option maxHeartbeats 1600000 in
/-- Counterexample for C4: with pocket aces in the strength table, `act`
overwrites the caller's `state.hand_strength` field — the GameState passed
in does not come back unchanged. -/
theorem act_mutates_input_state_cex :
    ∃ d b2 st1,
      act wRnd wRndInt mBot mState wLegal = some (d, b2, st1) ∧
      mState.hand_strength = none ∧ st1.hand_strength = some (17 / 20) ∧
      st1 ≠ mState := by
  have hk : getHandStrengthFromCsv [("AAo", (17 : ℚ) / 20)] ["As", "Ah"] =
      some (some (17 / 20)) := rfl
  refine ⟨⟨ActionType.check, 0, "strong_check_fallback"⟩,
    ⟨wProfile, 0, ⟨1, 0, 0⟩, [("AAo", 17 / 20)]⟩,
    { mState with hand_strength := some (17 / 20) }, ?_, rfl, rfl, ?_⟩
  · norm_num [act, hk, decidePreflop, decidePreflopMain, openingOpp,
      bucketStrength, positionFactor, potOdds, mBot, mState, wLegal,
      wProfile, wRnd, wRndInt]
    decide
  · intro h
    exact Option.noConfusion (congrArg GameState.hand_strength h)
